import Mathlib

/-!
Verification of the quadtree / GRTS sampling engine (`pygrts/tree.py`).

The Python source is shallowly embedded: coordinates are modelled as exact
rationals (`ℚ`), the point dataset as a list of points addressed by position,
and a quadrant address (a base-4 string in the source) as a `List Nat` of its
digits.  The spatial index's `intersection(bounds)` query, which returns the
positions of the dataset points falling inside a closed rectangle, is embedded
as an explicit filter.  External collaborators (the pseudo-random generator,
the KMeans clustering) are modelled as oracle functions quantified over in the
theorems.
-/

namespace PyGrts

/-- A dataset point: planar coordinates plus one (optional) attribute column
used by stratified sampling (`strata_column`). -/
structure Point where
  x : ℚ
  y : ℚ
  attr : Nat
deriving DecidableEq, Repr

/-- A rectangle `(left, bottom, right, top)`, as the `BBox` namedtuple. -/
structure BBox where
  left : ℚ
  bottom : ℚ
  right : ℚ
  top : ℚ
deriving DecidableEq, Repr

/-- Closed-rectangle containment: what `sindex.intersection(bounds)` tests for
a point geometry. -/
def inBox (p : Point) (b : BBox) : Prop :=
  b.left ≤ p.x ∧ p.x ≤ b.right ∧ b.bottom ≤ p.y ∧ p.y ≤ b.top

instance (p : Point) (b : BBox) : Decidable (inBox p b) := by
  unfold inBox; infer_instance

/-- `TreeMixin.intersection`, indices starting at `i`:
positions of the points of `l` contained in the closed box `b`. -/
def interAux (i : Nat) (l : List Point) (b : BBox) : List Nat :=
  match l with
  | [] => []
  | p :: rest =>
      if inBox p b then i :: interAux (i + 1) rest b else interAux (i + 1) rest b

/-- `self.intersection(bounds)`: dataset positions whose point lies in `b`. -/
def intersectionIdx (pts : List Point) (b : BBox) : List Nat :=
  interAux 0 pts b

/-- The mutable state of a `QuadTree`: per-quadrant bounds (`tree_bounds`),
per-quadrant base-4 addresses (`tree_ids`), and the `contains_null` flag. -/
structure QTState where
  bounds : List BBox
  ids : List (List Nat)
  containsNull : Bool
deriving DecidableEq, Repr

/-- Minimum of a list of rationals (junk 0 on the empty list, where numpy
`total_bounds` is undefined). -/
def minList (l : List ℚ) : ℚ :=
  match l with
  | [] => 0
  | a :: r => r.foldl min a

/-- Maximum of a list of rationals (junk 0 on the empty list). -/
def maxList (l : List ℚ) : ℚ :=
  match l with
  | [] => 0
  | a :: r => r.foldl max a

def minX (pts : List Point) : ℚ := minList (pts.map Point.x)
def maxX (pts : List Point) : ℚ := maxList (pts.map Point.x)
def minY (pts : List Point) : ℚ := minList (pts.map Point.y)
def maxY (pts : List Point) : ℚ := maxList (pts.map Point.y)

/-- The bounding-box expansion offset: 0.5 degree for EPSG:4326, 20000
linear units otherwise. -/
def offsetQ (crs4326 : Bool) : ℚ := if crs4326 then 1/2 else 20000

/-- x-extent of the offset-expanded dataset bounding box. -/
def expandedXLen (pts : List Point) (crs4326 : Bool) : ℚ :=
  (maxX pts + offsetQ crs4326) - (minX pts - offsetQ crs4326)

/-- y-extent of the offset-expanded dataset bounding box. -/
def expandedYLen (pts : List Point) (crs4326 : Bool) : ℚ :=
  (maxY pts + offsetQ crs4326) - (minY pts - offsetQ crs4326)

/-- `QuadTree.__init__`: expand the dataset bounding box by the offset
(0.5 for EPSG:4326, 20000 otherwise); when `force_square` is set, compare the
two extents (`min_qside` is `y` iff the y-extent is strictly smaller) and
replace the box: y-side shorter gives `(left, top - |qx|, right, top)`,
otherwise `(left, bottom, left + |qy|, top)`.  The minimum of an empty
dataset is junk (0), as `total_bounds` of an empty frame is undefined. -/
def initQT (pts : List Point) (crs4326 : Bool) (forceSquare : Bool) : QTState :=
  let offset : ℚ := offsetQ crs4326
  let l := minX pts - offset
  let b := minY pts - offset
  let r := maxX pts + offset
  let t := maxY pts + offset
  let qx := r - l
  let qy := t - b
  let tb : BBox :=
    if forceSquare then
      if qy < qx then ⟨l, t - |qx|, r, t⟩ else ⟨l, b, l + |qy|, t⟩
    else ⟨l, b, r, t⟩
  ⟨[tb], [[]], false⟩

/-- `qx_len` of a state (x-extent of the first quadrant). -/
def qxLen (s : QTState) : ℚ :=
  match s.bounds with
  | [] => 0
  | b :: _ => b.right - b.left

/-- `qy_len` of a state (y-extent of the first quadrant). -/
def qyLen (s : QTState) : ℚ :=
  match s.bounds with
  | [] => 0
  | b :: _ => b.top - b.bottom

/-- Horizontal midpoint used by `split`. -/
def xcQ (b : BBox) : ℚ := b.left + (b.right - b.left) / 2

/-- Vertical midpoint used by `split`. -/
def ycQ (b : BBox) : ℚ := b.top - (b.top - b.bottom) / 2

/-- The `qdict` of `split`: child rectangles by index
(0 = lower left, 1 = upper left, 2 = lower right, 3 = upper right). -/
def childBBox (q : Nat) (b : BBox) : BBox :=
  match q with
  | 0 => ⟨b.left, b.bottom, xcQ b, ycQ b⟩
  | 1 => ⟨b.left, ycQ b, xcQ b, b.top⟩
  | 2 => ⟨xcQ b, b.bottom, b.right, ycQ b⟩
  | _ => ⟨xcQ b, ycQ b, b.right, b.top⟩

/-- A child is kept iff its id list is non-empty and longer than `thresh`. -/
def keepChild (pts : List Point) (thresh : Nat) (cb : BBox) : Bool :=
  let idList := intersectionIdx pts cb
  decide (idList ≠ []) && decide (idList.length > thresh)

/-- The kept `(address, bounds)` children of one parent quadrant. -/
def keptChildren (pts : List Point) (thresh : Nat) (parent : List Nat × BBox) :
    List (List Nat × BBox) :=
  [0, 1, 2, 3].filterMap fun q =>
    let cb := childBBox q parent.2
    if keepChild pts thresh cb then some (parent.1 ++ [q], cb) else none

/-- `QuadTree.split(thresh)`: replace the quadrant set by the kept children of
every current quadrant (address = parent address with the child index
appended); `contains_null` is set iff some child was discarded. -/
def splitStep (pts : List Point) (thresh : Nat) (s : QTState) : QTState :=
  let kept := (s.ids.zip s.bounds).flatMap (keptChildren pts thresh)
  ⟨kept.map Prod.snd, kept.map Prod.fst,
    (s.ids.zip s.bounds).any fun parent =>
      [0, 1, 2, 3].any fun q => ! keepChild pts thresh (childBBox q parent.2)⟩

/-- Iterated splitting with a list of thresholds (one per `split` call). -/
def splitMany (pts : List Point) (ts : List Nat) (s : QTState) : QTState :=
  ts.foldl (fun st th => splitStep pts th st) s

/-- Total per-quadrant point count of a state: the sum over surviving
quadrants of the number of dataset points intersecting the quadrant. -/
def sumCounts (pts : List Point) (s : QTState) : Nat :=
  (s.bounds.map fun b => (intersectionIdx pts b).length).sum

/-- Number of point-in-quadrant incidences falling in the children pruned by
`split(thresh)`. -/
def prunedSum (pts : List Point) (thresh : Nat) (s : QTState) : Nat :=
  ((s.ids.zip s.bounds).map fun parent =>
    (([0, 1, 2, 3].filter fun q => ! keepChild pts thresh (childBBox q parent.2)).map
      fun q => (intersectionIdx pts (childBBox q parent.2)).length).sum).sum

/-! ### Grid tables, sorting, weighting -/

/-- A row of the (count-annotated) quadrant table: `uid` (base-4 address),
`geometry` (bounds) and `qcounts`. -/
structure GRow where
  uid : List Nat
  bounds : BBox
  qcounts : Nat
deriving DecidableEq, Repr

def uidsOf (l : List GRow) : List (List Nat) := l.map GRow.uid

/-- Lexicographic order on address digit strings, as pandas sorts the base-4
address strings. -/
def lexLe : List Nat → List Nat → Bool
  | [], _ => true
  | _ :: _, [] => false
  | a :: as, b :: bs => if a < b then true else if a = b then lexLe as bs else false

/-- `sort_values(by='uid')` (base-4 reverse sorting of the spec). -/
def sortRows (rows : List GRow) : List GRow :=
  List.insertionSort (fun a b => lexLe a.uid b.uid = true) rows

def maxListNat (l : List Nat) : Nat := l.foldr max 0

def maxQcount (l : List GRow) : Nat := maxListNat (l.map GRow.qcounts)

/-- `oversample = 1.0 / (qcounts / qcounts.max())`, i.e. `max(counts)/count`
per row, in exact rational arithmetic. -/
def oversampleVals (l : List GRow) : List ℚ :=
  l.map fun r => (maxQcount l : ℚ) / (r.qcounts : ℚ)

/-- `np.unique`: sorted distinct values. -/
def uniqueSorted (l : List ℚ) : List ℚ :=
  List.insertionSort (fun a b => a ≤ b) l.dedup

/-- Python `int()` on the (nonnegative) oversample factor.  `int()` truncates
toward zero; every use below is guarded by `over_val > 1`, where truncation
and floor agree. -/
def ratFloorNat (q : ℚ) : Nat := Int.toNat ⌊q⌋

inductive WeightMethod where
  | none
  | densityFactor
  | inverseDensity
  | cluster
deriving DecidableEq, Repr

/-- `QuadTree.weight_upsample`: for each distinct oversample value, duplicate
the matching rows — `int(over_val)` extra copies each when the method is
`inverse-density` and `over_val > 1`, one extra copy each otherwise when
`over_val > 2`; if anything was appended, concatenate and re-sort by uid.
(`over_df` in the source is a list of non-empty frames, so it is non-empty
exactly when the flattened row list is.) -/
def overRows (gridDf : List GRow) (wm : WeightMethod) : List GRow :=
  (uniqueSorted (oversampleVals gridDf)).flatMap fun v =>
    if wm = WeightMethod.inverseDensity then
      if 1 < v then
        (gridDf.filter fun r => decide ((maxQcount gridDf : ℚ) / (r.qcounts : ℚ) = v)).flatMap
          fun r => List.replicate (ratFloorNat v) r
      else []
    else
      if 2 < v then
        gridDf.filter fun r => decide ((maxQcount gridDf : ℚ) / (r.qcounts : ℚ) = v)
      else []

def weightUpsample (gridDf : List GRow) (wm : WeightMethod) : List GRow :=
  if overRows gridDf wm = [] then gridDf else sortRows (gridDf ++ overRows gridDf wm)

/-- Number of occurrences of an address in a grid table. -/
def countUid (l : List GRow) (u : List Nat) : Nat := (uidsOf l).count u

/-- Python dict insertion (`counts[i] = n`): update in place if the key
exists, else append. -/
def insertDict (acc : List (List Nat × Nat)) (k : List Nat) (v : Nat) :
    List (List Nat × Nat) :=
  if acc.any fun e => decide (e.1 = k) then
    acc.map fun e => if e.1 = k then (k, v) else e
  else acc ++ [(k, v)]

/-- `QuadTree.counts`: address → positive intersection count, built in
quadrant order. -/
def countsList (pts : List Point) (ids : List (List Nat)) (bs : List BBox) :
    List (List Nat × Nat) :=
  (ids.zip bs).foldl
    (fun acc e =>
      let c := (intersectionIdx pts e.2).length
      if 0 < c then insertDict acc e.1 c else acc)
    []

/-- The `to_frame()` rows of a tree state: `(uid, geometry)` pairs. -/
def baseFrame (s : QTState) : List (List Nat × BBox) := s.ids.zip s.bounds

/-- Inner `merge(..., on='uid')` of frame rows with the counts table. -/
def mergeFrame (frameRows : List (List Nat × BBox)) (cnts : List (List Nat × Nat)) :
    List GRow :=
  frameRows.flatMap fun fr =>
    (cnts.filter fun c => decide (c.1 = fr.1)).map fun c => ⟨fr.1, fr.2, c.2⟩

/-! ### Random / clustering oracles and the GRTS sampler -/

/-- External collaborators (`np.random.Generator`, KMeans): modelled as
arbitrary functions of a call counter, one increment per draw, so that any
execution trace of the program corresponds to some oracle. -/
structure Oracle where
  choice : Nat → Nat → Nat
  shuffle : Nat → List Nat → List Nat
  subsetRows : Nat → List GRow → Nat → List GRow
  subsetIdx : Nat → List Nat → Nat → List Nat
  subsetWeighted : Nat → List Nat → List ℚ → Nat → List Nat
  clusterDup : List (List Nat × BBox) → List (List Nat × BBox)

/-- The contract every real generator satisfies: shuffling permutes its input
and sampling-without-replacement draws from its pool. -/
def OracleOK (o : Oracle) : Prop :=
  (∀ t l, ∀ x ∈ o.shuffle t l, x ∈ l) ∧
  (∀ t rs k, ∀ r ∈ o.subsetRows t rs k, r ∈ rs) ∧
  (∀ t l k, ∀ x ∈ o.subsetIdx t l k, x ∈ l) ∧
  (∀ t l w k, ∀ x ∈ o.subsetWeighted t l w k, x ∈ l)

/-- The sampling configuration of `_sample_grids`. -/
structure Config where
  samplesPerGrid : Nat
  useStrata : Bool
  strataQuota : Option (Nat → Nat)
  weightByDistance : Bool
  multiplyBy : ℚ

/-- pandas `clip(lo, hi)`. -/
def clipQ (lo hi v : ℚ) : ℚ := min hi (max lo v)

/-- `row_geometry.exterior.distance(point)` for a point contained in the
rectangle: the minimum distance to the four sides.  Candidates always
intersect their quadrant; the outside case (irrational euclidean distance)
is junk 0. -/
def distExterior (p : Point) (b : BBox) : ℚ :=
  if inBox p b then
    min (min (p.x - b.left) (b.right - p.x)) (min (p.y - b.bottom) (b.top - p.y))
  else 0

/-- The distance weights of `_sample_grids`:
`(1 - d/d.max()).clip(0.1, 1)`, times the multiplier, normalized by the sum. -/
def distanceWeights (ds : List ℚ) (mult : ℚ) : List ℚ :=
  let m := maxList ds
  let clipped := ds.map fun d => clipQ (1/10) 1 (1 - d / m) * mult
  let s := clipped.sum
  clipped.map fun w => w / s

def ptAt (pts : List Point) (i : Nat) : Point := pts.getD i ⟨0, 0, 0⟩

def sortNat (l : List Nat) : List Nat := List.insertionSort (fun a b => a ≤ b) l

/-- The stratified branch: pandas `groupby(strata_column)` visits groups in
sorted attribute order; each group draws `min(quota, group size)` members
without replacement (one generator draw per group). -/
def strataLoop (o : Oracle) (pts : List Point) (cfg : Config) (cand : List Nat) :
    Nat → List Nat → List Nat × Nat
  | t, [] => ([], t)
  | t, v :: vs =>
      let grp := cand.filter fun i => decide ((ptAt pts i).attr = v)
      let k := match cfg.strataQuota with
        | some quota => min (quota v) grp.length
        | Option.none => min cfg.samplesPerGrid grp.length
      let sel := o.subsetIdx t grp k
      let rest := strataLoop o pts cfg cand (t + 1) vs
      (sel ++ rest.1, rest.2)

/-- Within-quadrant selection for one selected grid row: shuffle the
intersecting candidates, then stratified / distance-weighted / plain head. -/
def selectInGrid (o : Oracle) (t : Nat) (g : GRow) (pts : List Point) (cfg : Config) :
    List Nat × Nat :=
  let cand := o.shuffle t (intersectionIdx pts g.bounds)
  let t1 := t + 1
  if cfg.useStrata then
    let vals := sortNat ((cand.map fun i => (ptAt pts i).attr).dedup)
    strataLoop o pts cfg cand t1 vals
  else if cfg.weightByDistance then
    let ws := distanceWeights (cand.map fun i => distExterior (ptAt pts i) g.bounds)
      cfg.multiplyBy
    (o.subsetWeighted t1 cand ws (min cfg.samplesPerGrid cand.length), t1 + 1)
  else
    (cand.take cfg.samplesPerGrid, t1)

/-- The per-grid loop of `_sample_grids`. -/
def gridLoop (o : Oracle) (pts : List Point) (cfg : Config) :
    Nat → List GRow → List Nat × Nat
  | t, [] => ([], t)
  | t, g :: gs =>
      let s := selectInGrid o t g pts cfg
      let rest := gridLoop o pts cfg s.2 gs
      (s.1 ++ rest.1, rest.2)

/-- The top-up of `_sample_grids`: when `n > 0.5 * len(grid_df)` (exactly
`2n > len` in exact arithmetic), extend the systematic sample by a random
draw from the not-yet-selected rows of the pool. -/
def topupExt (o : Oracle) (t : Nat) (pool : List GRow) (dfSample : List GRow) (n : Nat) :
    List GRow :=
  if 2 * n > pool.length then
    dfSample ++
      o.subsetRows t (pool.filter fun g => decide (g.uid ∉ uidsOf dfSample))
        (n - dfSample.length)
  else dfSample

/-- `_sample_grids`: returns the sorted, deduplicated selected dataset
positions, and the advanced call counter. -/
def sampleGridsF (o : Oracle) (t : Nat) (pool : List GRow) (dfSample : List GRow)
    (n : Nat) (pts : List Point) (cfg : Config) : List Nat × Nat :=
  let ext := topupExt o t pool dfSample n
  let t1 := if 2 * n > pool.length then t + 1 else t
  let r := gridLoop o pts cfg t1 ext
  (sortNat r.1.dedup, r.2)

/-- `_get_skip`: `ceil(num_grids / n)` (`n = 0` is an error path in Python,
junk here). -/
def getSkip (len n : Nat) : Nat := (len + n - 1) / n

/-- `df.iloc[::k]` (`k = 0` raises in Python, junk `[]` here). -/
def everyNthAux {α : Type} : List α → Nat → Nat → List α
  | [], _, _ => []
  | a :: rest, k, 0 => a :: everyNthAux rest k (k - 1)
  | _ :: rest, k, c + 1 => everyNthAux rest k c

def everyNth {α : Type} (l : List α) (k : Nat) : List α :=
  if k = 0 then [] else everyNthAux l k 0

/-- Result of `sample_split`: the (possibly trimmed) pool handed to
`_sample_grids`, the returned systematic grid sample, the selected dataset
positions, and the advanced call counter. -/
structure SSRes where
  pool : List GRow
  grid : List GRow
  idx : List Nat
  time : Nat

/-- `QuadTree.sample_split`. -/
def sampleSplitF (o : Oracle) (t : Nat) (df : List GRow) (n : Nat) (pts : List Point)
    (cfg : Config) (seedStart : Bool) : SSRes :=
  let df2 := if seedStart then df.drop (o.choice t (getSkip df.length n)) else df
  let t2 := if seedStart then t + 1 else t
  let gs := everyNth df2 (getSkip df2.length n)
  let r := sampleGridsF o t2 df2 gs n pts cfg
  ⟨df2, gs, r.1, r.2⟩

/-! ### Preprocessing and the split allocator -/

/-- The tail of `_preprocess_grid`: base-4 sort, then density upsampling for
the two density methods. -/
def preprocessGivenGrid (wm : WeightMethod) (rows : List GRow) : List GRow :=
  let sorted := sortRows rows
  if wm = WeightMethod.densityFactor ∨ wm = WeightMethod.inverseDensity then
    weightUpsample sorted wm
  else sorted

/-- `_preprocess_grid` with `grid_df=None`: build the frame (via
`weight_grids`, i.e. the clustering oracle, for the `cluster` method), merge
the counts, sort and upsample. -/
def preprocessFromTree (o : Oracle) (wm : WeightMethod) (pts : List Point) (s : QTState) :
    List GRow :=
  let base := if wm = WeightMethod.cluster then o.clusterDup (baseFrame s) else baseFrame s
  preprocessGivenGrid wm (mergeFrame base (countsList pts s.ids s.bounds))

/-- `int(len(grid_df) * frac)` (truncation; the products arising here are
nonnegative, where truncation is the floor). -/
def pyFracN (len : Nat) (frac : ℚ) : Nat := Int.toNat ⌊(len : ℚ) * frac⌋

/-- All intermediate values of one `sample_train_val_test` run. -/
structure TvtResult where
  grid0 : List GRow
  tN : Nat
  vN : Nat
  trN : Nat
  tRes : SSRes
  vRes : SSRes
  trRes : SSRes

/-- `QuadTree.sample_train_val_test`: draw test, remove its grid uids from
the pool, draw validation, remove, draw train; each draw with a fresh random
start. -/
def tvtF (o : Oracle) (pts : List Point) (s : QTState) (wm : WeightMethod)
    (testFrac valFrac trainFrac : ℚ) (cfg : Config) : TvtResult :=
  let g0 := preprocessFromTree o wm pts s
  let tN := pyFracN g0.length testFrac
  let tR := sampleSplitF o 0 g0 tN pts cfg true
  let g1 := g0.filter fun r => decide (r.uid ∉ uidsOf tR.grid)
  let vN := pyFracN g1.length valFrac
  let vR := sampleSplitF o tR.time g1 vN pts cfg true
  let g2 := g1.filter fun r => decide (r.uid ∉ uidsOf vR.grid)
  let trN := pyFracN g2.length trainFrac
  let trR := sampleSplitF o vR.time g2 trN pts cfg true
  ⟨g0, tN, vN, trN, tR, vR, trR⟩

/-- One yielded `(train, test)` split pair of `split_kfold`. -/
structure Fold where
  trainGrid : List GRow
  trainIdx : List Nat
  testGrid : List GRow
  testIdx : List Nat
deriving DecidableEq

/-- pandas `Series.duplicated().any()`: some value occurs twice. -/
def duplicatedAny : List (List Nat) → Bool
  | [] => false
  | a :: rest => decide (a ∈ rest) || duplicatedAny rest

/-- pandas `a.isin(b).any()`. -/
def isinAny (xs ys : List (List Nat)) : Bool := xs.any fun x => decide (x ∈ ys)

/-- The test draw of one `split_kfold` fold: preprocess the remaining pool
(sort plus density upsampling) and draw the test split with no random start. -/
def kfTestRes (o : Oracle) (t : Nat) (pts : List Point) (reduce : List GRow)
    (splitSize : Nat) (cfg : Config) (wm : WeightMethod) : SSRes :=
  sampleSplitF o t (preprocessGivenGrid wm reduce) splitSize pts cfg false

/-- The fold's test grid table. -/
def kfTest (o : Oracle) (t : Nat) (pts : List Point) (reduce : List GRow)
    (splitSize : Nat) (cfg : Config) (wm : WeightMethod) : List GRow :=
  (kfTestRes o t pts reduce splitSize cfg wm).grid

/-- The fold's test point positions. -/
def kfTestIdx (o : Oracle) (t : Nat) (pts : List Point) (reduce : List GRow)
    (splitSize : Nat) (cfg : Config) (wm : WeightMethod) : List Nat :=
  (kfTestRes o t pts reduce splitSize cfg wm).idx

/-- The fold's train grid table: all rows of the full table whose uid is not
a test uid. -/
def kfTrain (o : Oracle) (t : Nat) (pts : List Point) (full reduce : List GRow)
    (splitSize : Nat) (cfg : Config) (wm : WeightMethod) : List GRow :=
  full.filter fun r => decide (r.uid ∉ uidsOf (kfTest o t pts reduce splitSize cfg wm))

/-- The fold's train point positions: the dataset rows not selected for the
test split. -/
def kfTrainIdx (o : Oracle) (t : Nat) (pts : List Point) (reduce : List GRow)
    (splitSize : Nat) (cfg : Config) (wm : WeightMethod) : List Nat :=
  (List.range pts.length).filter fun i =>
    decide (i ∉ kfTestIdx o t pts reduce splitSize cfg wm)

/-- One fold of `split_kfold`: preprocess the remaining pool, draw the test
split (no random start), build the train split from the full table, run the
three integrity checks, and either fail or yield the fold together with the
reduced pool and advanced counter. -/
def kfoldStep (o : Oracle) (t : Nat) (pts : List Point) (full reduce : List GRow)
    (splitSize : Nat) (cfg : Config) (wm : WeightMethod) :
    Except String (Fold × List GRow × Nat) :=
  let tg := kfTest o t pts reduce splitSize cfg wm
  let tr := kfTrain o t pts full reduce splitSize cfg wm
  if duplicatedAny (uidsOf tr) then
    Except.error "There was train id duplication."
  else if duplicatedAny (uidsOf tg) then
    Except.error "There was test id duplication."
  else if isinAny (uidsOf tg) (uidsOf tr) then
    Except.error "There was test leakage into train splits."
  else
    Except.ok (⟨tr, kfTrainIdx o t pts reduce splitSize cfg wm, tg,
        kfTestIdx o t pts reduce splitSize cfg wm⟩,
      reduce.filter fun r => decide (r.uid ∉ uidsOf tg),
      (kfTestRes o t pts reduce splitSize cfg wm).time)

/-- The fold generator loop: successful folds are yielded in order; a raised
integrity error aborts the sequence. -/
def kfoldGo (o : Oracle) (pts : List Point) (full : List GRow) (splitSize : Nat)
    (cfg : Config) (wm : WeightMethod) : Nat → List GRow → Nat → List Fold
  | 0, _, _ => []
  | k + 1, reduce, t =>
      match kfoldStep o t pts full reduce splitSize cfg wm with
      | Except.error _ => []
      | Except.ok r => r.1 :: kfoldGo o pts full splitSize cfg wm k r.2.1 r.2.2

/-- `QuadTree.split_kfold`: the list of yielded folds
(`split_size = int(nquads / n_splits)`). -/
def kfoldRun (o : Oracle) (pts : List Point) (s : QTState) (nSplits : Nat)
    (cfg : Config) (wm : WeightMethod) : List Fold :=
  let full := mergeFrame (baseFrame s) (countsList pts s.ids s.bounds)
  kfoldGo o pts full (s.bounds.length / nSplits) cfg wm nSplits full 0

/-! ### split_recursive policy selection and the count query -/

/-- The stopping-policy state after the argument-normalization prelude of
`split_recursive`. -/
structure RecPolicy where
  firstNull : Bool
  maxLength : Option ℚ
  maxSamples : Option Int
deriving DecidableEq, Repr

/-- The prelude of `split_recursive` (lines 325-338): `first_null` wins, then
a supplied `max_length`, then a supplied `max_samples`; the `NameError` in
the third branch is guarded by `isinstance(max_samples, int)` and then
`not isinstance(max_samples, int)`, embedded faithfully below. -/
def selectPolicy (maxSamples : Option Int) (maxLength : Option ℚ) (firstNull : Bool) :
    Except String RecPolicy :=
  if firstNull then Except.ok ⟨true, Option.none, Option.none⟩
  else if maxLength.isSome then Except.ok ⟨false, maxLength, Option.none⟩
  else if maxSamples.isSome then
    if ¬ maxSamples.isSome then Except.error "One of the four options must be chosen."
    else Except.ok ⟨false, Option.none, maxSamples⟩
  else Except.ok ⟨firstNull, maxLength, maxSamples⟩

/-- `qmax`: the larger side length of the first quadrant. -/
def qmaxQ (s : QTState) : ℚ := if qyLen s < qxLen s then qxLen s else qyLen s

/-- `max(self.counts.values())` (the count of the argmax key). -/
def maxCountVal (pts : List Point) (s : QTState) : Nat :=
  maxListNat ((countsList pts s.ids s.bounds).map Prod.snd)

/-- The per-iteration break test of the `split_recursive` loop, in source
order: an active `max_length`, else `first_null`, else an active
`max_samples` (stop when the maximum count is small enough or stopped
decreasing). -/
def loopStops (p : RecPolicy) (pts : List Point) (s : QTState) (oldCount : Nat) : Bool :=
  if p.maxLength.isSome then decide (qmaxQ s ≤ p.maxLength.getD 0)
  else if p.firstNull then s.containsNull
  else
    match p.maxSamples with
    | some ms =>
        decide ((maxCountVal pts s : Int) ≤ ms) || decide (maxCountVal pts s = oldCount)
    | Option.none => false

/-- The columns of the frame returned by `QuadTree.to_frame()`:
`data=tree_ids, columns=['uid']` plus the geometry column. -/
def toFrameColumns : List String := ["uid", "geometry"]

/-- pandas `DataFrame.query(column == value)` name resolution: an unprefixed
name must be a column of the frame (the query fails with
`UndefinedVariableError` otherwise); comparison against the id column filters
the rows.  The frame here is the `to_frame()` output, whose single data
column is the uid. -/
def dfQueryEq (cols : List String) (c : String) (rows : List (List Nat × BBox))
    (v : List Nat) : Except String (List (List Nat × BBox)) :=
  if c ∈ cols then Except.ok (rows.filter fun r => decide (r.1 = v))
  else Except.error "UndefinedVariableError: name id is not defined"

/-- `QuadTree.count(qid)`: queries the frame with `id == qid` (note: the
frame's id column is named `uid`), takes the bounds of the matching rows,
intersects, and returns the length (or 0 when empty). -/
def countQ (pts : List Point) (s : QTState) (qid : List Nat) : Except String Nat :=
  match dfQueryEq toFrameColumns "id" (baseFrame s) qid with
  | Except.error e => Except.error e
  | Except.ok rows =>
      let pint := rows.flatMap fun r => intersectionIdx pts r.2
      Except.ok (if pint ≠ [] then pint.length else 0)

/-! ### Disjointness predicates and concrete fixtures -/

def uidDisjoint (a b : List GRow) : Prop := ∀ u ∈ uidsOf a, u ∉ uidsOf b

def idxDisjoint (a b : List Nat) : Prop := ∀ i ∈ a, i ∉ b

/-- No dataset point lies in two quadrants carrying different addresses
(e.g. on a shared quadrant boundary) of the given grid table. -/
def NoShared (pts : List Point) (rows : List GRow) : Prop :=
  ∀ g ∈ rows, ∀ g2 ∈ rows, ∀ i ∈ intersectionIdx pts g.bounds,
    i ∈ intersectionIdx pts g2.bounds → g.uid = g2.uid

/-- The split's target does not exceed half its pool, so the random top-up
branch of `_sample_grids` is not taken. -/
def NoTopUp (n : Nat) (r : SSRes) : Prop := 2 * n ≤ r.pool.length

/-- Modelled from the spec text (claim wording only): Python built-in
`round` — round half to even — of a nonnegative rational. -/
def pyRound (q : ℚ) : Int :=
  if q - ⌊q⌋ < 1/2 then ⌊q⌋
  else if 1/2 < q - ⌊q⌋ then ⌊q⌋ + 1
  else if ⌊q⌋ % 2 = 0 then ⌊q⌋ else ⌊q⌋ + 1

/-- A concrete admissible generator: first choice, identity shuffle,
head-of-pool subsets. -/
def idOracle : Oracle :=
  ⟨fun _ _ => 0, fun _ l => l, fun _ l k => l.take k, fun _ l k => l.take k,
    fun _ l _ k => l.take k, fun b => b⟩

/-- Plain sampling configuration: one sample per grid, no stratification, no
distance weighting. -/
def plainCfg : Config := ⟨1, false, Option.none, false, 1⟩

/-- Four quadrants of one split of `(0,0,2,2)`. -/
def stateFour : QTState :=
  ⟨[⟨0, 0, 1, 1⟩, ⟨0, 1, 1, 2⟩, ⟨1, 0, 2, 1⟩, ⟨1, 1, 2, 2⟩],
    [[0], [1], [2], [3]], false⟩

/-- Quadrant table with counts `[10, 5, 1]` (spec example for C5). -/
def tblTen : List GRow :=
  [⟨[0], ⟨0, 0, 1, 1⟩, 10⟩, ⟨[1], ⟨0, 1, 1, 2⟩, 5⟩, ⟨[2], ⟨1, 0, 2, 1⟩, 1⟩]

/-- Quadrant table with counts `[3, 2]`: the count-2 row has oversample 3/2,
where truncation (1) and round-half-even (2) differ. -/
def tbl32 : List GRow := [⟨[0], ⟨0, 0, 1, 1⟩, 3⟩, ⟨[1], ⟨0, 1, 1, 2⟩, 2⟩]

/-- Quadrant table with uniform counts. -/
def tblFive : List GRow := [⟨[0], ⟨0, 0, 1, 1⟩, 5⟩, ⟨[1], ⟨0, 1, 1, 2⟩, 5⟩]

/-- Point 0 lies on the shared boundary of quadrants `0` and `1`; the others
are interior, one per quadrant. -/
def ptsBnd : List Point :=
  [⟨1/2, 1, 0⟩, ⟨1/2, 1/2, 0⟩, ⟨1/2, 3/2, 0⟩, ⟨3/2, 1/2, 0⟩, ⟨3/2, 3/2, 0⟩]

/-- Interior-only points, one per quadrant of `stateFour`. -/
def ptsIn : List Point :=
  [⟨1/2, 1/2, 0⟩, ⟨1/2, 3/2, 0⟩, ⟨3/2, 1/2, 0⟩, ⟨3/2, 3/2, 0⟩]

/-- The count-annotated grid table of `stateFour` over `ptsBnd`. -/
def rowsFour : List GRow :=
  [⟨[0], ⟨0, 0, 1, 1⟩, 2⟩, ⟨[1], ⟨0, 1, 1, 2⟩, 2⟩,
    ⟨[2], ⟨1, 0, 2, 1⟩, 1⟩, ⟨[3], ⟨1, 1, 2, 2⟩, 1⟩]

/-- The count-annotated grid table of `stateFour` over `ptsIn`. -/
def rowsIn : List GRow :=
  [⟨[0], ⟨0, 0, 1, 1⟩, 1⟩, ⟨[1], ⟨0, 1, 1, 2⟩, 1⟩,
    ⟨[2], ⟨1, 0, 2, 1⟩, 1⟩, ⟨[3], ⟨1, 1, 2, 2⟩, 1⟩]

/-- A dataset whose expanded bounding box is 3 wide and 2 tall. -/
def ptsRect : List Point := [⟨0, 0, 0⟩, ⟨2, 1, 0⟩]

/-- A single root quadrant `(0,0,2,2)`. -/
def stateRoot : QTState := ⟨[⟨0, 0, 2, 2⟩], [[]], false⟩

/-- One point at the exact center of `stateRoot`, i.e. on both midlines. -/
def ptsCenter : List Point := [⟨1, 1, 0⟩]

/-! ### Basic lemmas about the intersection filter -/

theorem interAux_length (b : BBox) :
    ∀ (l : List Point) (i : Nat),
      (interAux i l b).length = l.countP fun p => decide (inBox p b) := by
  intro l
  induction l with
  | nil => intro i; simp [interAux]
  | cons p rest ih =>
      intro i
      by_cases h : inBox p b <;>
        simp [interAux, h, List.countP_cons, ih]

theorem intersectionIdx_length (pts : List Point) (b : BBox) :
    (intersectionIdx pts b).length = pts.countP fun p => decide (inBox p b) :=
  interAux_length b pts 0

theorem interAux_mem_lt (b : BBox) :
    ∀ (l : List Point) (i j : Nat), j ∈ interAux i l b → i ≤ j ∧ j < i + l.length := by
  intro l
  induction l with
  | nil => intro i j h; simp [interAux] at h
  | cons p rest ih =>
      intro i j h
      by_cases hp : inBox p b <;> simp [interAux, hp] at h
      · rcases h with rfl | h
        · simp
        · have := ih (i + 1) j h
          simp only [List.length_cons]
          omega
      · have := ih (i + 1) j h
        simp only [List.length_cons]
        omega

theorem interAux_mem_iff (b : BBox) :
    ∀ (l : List Point) (i j : Nat),
      j ∈ interAux i l b ↔ ∃ k, ∃ h : k < l.length, i + k = j ∧ inBox (l.get ⟨k, h⟩) b := by
  intro l
  induction l with
  | nil => intro i j; simp [interAux]
  | cons p rest ih =>
      intro i j
      by_cases hp : inBox p b <;> simp only [interAux, hp, if_pos, if_neg, not_false_iff]
      · constructor
        · intro h
          rcases List.mem_cons.mp h with rfl | h
          · exact ⟨0, by simp, by simp, by simpa using hp⟩
          · rcases (ih (i + 1) j).mp h with ⟨k, hk, hik, hin⟩
            exact ⟨k + 1, by simpa using hk, by omega, by simpa using hin⟩
        · rintro ⟨k, hk, hik, hin⟩
          cases k with
          | zero => simp at hin hik; simp [hik]
          | succ k =>
              refine List.mem_cons_of_mem _ ((ih (i + 1) j).mpr ⟨k, ?_, by omega, ?_⟩)
              · simpa using hk
              · simpa using hin
      · constructor
        · intro h
          rcases (ih (i + 1) j).mp h with ⟨k, hk, hik, hin⟩
          exact ⟨k + 1, by simpa using hk, by omega, by simpa using hin⟩
        · rintro ⟨k, hk, hik, hin⟩
          cases k with
          | zero => simp at hin hik; exact absurd (by simpa [← hik] using hin) hp
          | succ k =>
              refine (ih (i + 1) j).mpr ⟨k, ?_, by omega, ?_⟩
              · simpa using hk
              · simpa using hin

theorem intersectionIdx_mem_iff (pts : List Point) (b : BBox) (j : Nat) :
    j ∈ intersectionIdx pts b ↔
      ∃ h : j < pts.length, inBox (pts.get ⟨j, h⟩) b := by
  unfold intersectionIdx
  rw [interAux_mem_iff]
  constructor
  · rintro ⟨k, hk, hik, hin⟩
    have hkj : k = j := by omega
    subst hkj
    exact ⟨hk, hin⟩
  · rintro ⟨h, hin⟩
    exact ⟨j, h, by omega, hin⟩

end PyGrts

namespace PyGrts

/-! ### C7: force_square geometry -/

theorem foldl_min_le (l : List ℚ) (a : ℚ) : l.foldl min a ≤ a := by
  induction l generalizing a with
  | nil => exact le_refl a
  | cons x xs ih => exact le_trans (ih (min a x)) (min_le_left a x)

theorem le_foldl_max (l : List ℚ) (a : ℚ) : a ≤ l.foldl max a := by
  induction l generalizing a with
  | nil => exact le_refl a
  | cons x xs ih => exact le_trans (le_max_left a x) (ih (max a x))

theorem minList_le_maxList (l : List ℚ) (h : l ≠ []) : minList l ≤ maxList l := by
  match l with
  | [] => exact absurd rfl h
  | a :: r =>
      exact le_trans (foldl_min_le r a) (le_foldl_max r a)

theorem offsetQ_pos (crs4326 : Bool) : 0 < offsetQ crs4326 := by
  unfold offsetQ; split <;> norm_num

/-- C7 (amended): with `force_square`, construction makes the initial
quadrant square, but its side is the LARGER of the two offset-expanded
extents: the shorter side is expanded to match the longer one (anchored at
the top when the y-side grows, at the left when the x-side grows). -/
theorem c7_force_square_extents (pts : List Point) (hne : pts ≠ []) (crs4326 : Bool) :
    qxLen (initQT pts crs4326 true) = qyLen (initQT pts crs4326 true) ∧
    qxLen (initQT pts crs4326 true) =
      max (expandedXLen pts crs4326) (expandedYLen pts crs4326) := by
  have hxle : minX pts ≤ maxX pts :=
    minList_le_maxList _ (by simpa using hne)
  have hyle : minY pts ≤ maxY pts :=
    minList_le_maxList _ (by simpa using hne)
  have hoff : 0 < offsetQ crs4326 := offsetQ_pos crs4326
  unfold initQT qxLen qyLen expandedXLen expandedYLen
  simp only [if_true]
  split_ifs with h
  · have hqx : 0 < maxX pts + offsetQ crs4326 - (minX pts - offsetQ crs4326) := by linarith
    constructor
    · simp only []
      rw [abs_of_pos hqx]
      ring
    · simp only []
      rw [max_eq_left (le_of_lt h)]
  · have hqy : 0 < maxY pts + offsetQ crs4326 - (minY pts - offsetQ crs4326) := by linarith
    push_neg at h
    constructor
    · simp only []
      rw [abs_of_pos hqy]
      ring
    · simp only []
      rw [abs_of_pos hqy, max_eq_right h]
      ring

/-- C7 counterexample: for `ptsRect` (expanded extents 3 and 2) the claim
says both sides become `min 3 2 = 2`; the code yields 3. -/
theorem c7_counterexample :
    qxLen (initQT ptsRect true true) = 3 ∧
    min (expandedXLen ptsRect true) (expandedYLen ptsRect true) = 2 ∧
    qxLen (initQT ptsRect true true) ≠
      min (expandedXLen ptsRect true) (expandedYLen ptsRect true) := by
  norm_num [initQT, qxLen, expandedXLen, expandedYLen, minX, maxX, minY, maxY,
    minList, maxList, offsetQ, ptsRect]

/-- C7 witness: the amended theorem applied to `ptsRect`. -/
theorem c7_witness :
    qxLen (initQT ptsRect true true) = qyLen (initQT ptsRect true true) ∧
    qxLen (initQT ptsRect true true) =
      max (expandedXLen ptsRect true) (expandedYLen ptsRect true) :=
  c7_force_square_extents ptsRect (by simp [ptsRect]) true

end PyGrts

namespace PyGrts

/-! ### C3: address length, digits, distinctness -/

theorem keptChildren_mem {pts : List Point} {th : Nat} {pe e : List Nat × BBox}
    (h : e ∈ keptChildren pts th pe) :
    ∃ q, q < 4 ∧ e = (pe.1 ++ [q], childBBox q pe.2) := by
  unfold keptChildren at h
  rcases List.mem_filterMap.mp h with ⟨q, hq, heq⟩
  by_cases hk : keepChild pts th (childBBox q pe.2)
  · simp only [hk, if_pos, Option.some.injEq] at heq
    refine ⟨q, ?_, heq.symm⟩
    simp only [List.mem_cons, List.mem_singleton] at hq
    rcases hq with rfl | rfl | rfl | rfl | h4
    · omega
    · omega
    · omega
    · omega
    · simp at h4
  · simp [hk] at heq

theorem splitStep_ids (pts : List Point) (th : Nat) (s : QTState) :
    (splitStep pts th s).ids =
      (s.ids.zip s.bounds).flatMap fun pe => (keptChildren pts th pe).map Prod.fst := by
  unfold splitStep
  simp [List.map_flatMap]

theorem zip_map_fst_snd {α β : Type} (l : List (α × β)) :
    (l.map Prod.fst).zip (l.map Prod.snd) = l := by
  induction l with
  | nil => simp
  | cons a l ih => simp [ih]

theorem keptChildren_ids (pts : List Point) (th : Nat) (pe : List Nat × BBox) :
    (keptChildren pts th pe).map Prod.fst =
      [0, 1, 2, 3].filterMap fun q =>
        if keepChild pts th (childBBox q pe.2) then some (pe.1 ++ [q]) else none := by
  unfold keptChildren
  rw [List.map_filterMap]
  congr 1
  funext q
  by_cases hk : keepChild pts th (childBBox q pe.2) <;> simp [hk]

theorem keptChildren_ids_nodup (pts : List Point) (th : Nat) (pe : List Nat × BBox) :
    ((keptChildren pts th pe).map Prod.fst).Nodup := by
  rw [keptChildren_ids]
  refine List.Nodup.filterMap ?_ (by decide)
  intro a a' b hb hb'
  by_cases ha : keepChild pts th (childBBox a pe.2) <;> simp [ha] at hb
  by_cases ha' : keepChild pts th (childBBox a' pe.2) <;> simp [ha'] at hb'
  have : pe.1 ++ [a] = pe.1 ++ [a'] := by rw [hb, hb']
  have := List.append_cancel_left this
  simpa using this

theorem map_fst_zip_sublist {α β : Type} :
    ∀ (l1 : List α) (l2 : List β), List.Sublist ((l1.zip l2).map Prod.fst) l1
  | [], _ => by simp
  | a :: l1, [] => by simp
  | a :: l1, b :: l2 => by simpa using (map_fst_zip_sublist l1 l2).cons₂ a

theorem splitStep_addr_inv (pts : List Point) (th : Nat) (s : QTState) (n : Nat)
    (h1 : ∀ a ∈ s.ids, a.length = n ∧ ∀ d ∈ a, d < 4) (h2 : s.ids.Nodup) :
    (∀ a ∈ (splitStep pts th s).ids, a.length = n + 1 ∧ ∀ d ∈ a, d < 4) ∧
      (splitStep pts th s).ids.Nodup := by
  constructor
  · intro a ha
    rw [splitStep_ids] at ha
    rcases List.mem_flatMap.mp ha with ⟨pe, hpe, hain⟩
    rcases List.mem_map.mp hain with ⟨e, he, rfl⟩
    rcases keptChildren_mem he with ⟨q, hq4, rfl⟩
    have hpids : pe.1 ∈ s.ids := (List.of_mem_zip hpe).1
    have hp := h1 pe.1 hpids
    constructor
    · simp [hp.1]
    · intro d hd
      rcases List.mem_append.mp hd with hd | hd
      · exact hp.2 d hd
      · simp only [List.mem_singleton] at hd
        omega
  · rw [splitStep_ids]
    rw [List.nodup_flatMap]
    constructor
    · intro pe _
      exact keptChildren_ids_nodup pts th pe
    · have hfst : ((s.ids.zip s.bounds).map Prod.fst).Nodup :=
        (map_fst_zip_sublist s.ids s.bounds).nodup h2
      have hpw : (s.ids.zip s.bounds).Pairwise fun x y => x.1 ≠ y.1 :=
        List.pairwise_map.mp hfst
      refine List.Pairwise.imp_of_mem ?_ hpw
      intro x y hx hy hne
      simp only [Function.onFun]
      intro a hax hay
      obtain ⟨ex, hex, haex⟩ := List.mem_map.mp hax
      obtain ⟨ey, hey, haey⟩ := List.mem_map.mp hay
      rcases keptChildren_mem hex with ⟨qx, _, rfl⟩
      rcases keptChildren_mem hey with ⟨qy, _, rfl⟩
      simp only [] at haex haey
      have hxy : x.1 ++ [qx] = y.1 ++ [qy] := by rw [haex, ← haey]
      have hlx := (h1 x.1 (List.of_mem_zip hx).1).1
      have hly := (h1 y.1 (List.of_mem_zip hy).1).1
      exact hne (List.append_inj_left hxy (hlx.trans hly.symm))

theorem splitMany_addr_inv (pts : List Point) (ts : List Nat) :
    ∀ (s : QTState) (n : Nat),
      (∀ a ∈ s.ids, a.length = n ∧ ∀ d ∈ a, d < 4) → s.ids.Nodup →
      (∀ a ∈ (splitMany pts ts s).ids, a.length = n + ts.length ∧ ∀ d ∈ a, d < 4) ∧
        (splitMany pts ts s).ids.Nodup := by
  induction ts with
  | nil =>
      intro s n h1 h2
      exact ⟨fun a ha => by simpa using h1 a ha, h2⟩
  | cons th ts ih =>
      intro s n h1 h2
      have hstep := splitStep_addr_inv pts th s n h1 h2
      have hrec := ih (splitStep pts th s) (n + 1) hstep.1 hstep.2
      have heq : splitMany pts (th :: ts) s = splitMany pts ts (splitStep pts th s) := rfl
      rw [heq]
      refine ⟨fun a ha => ?_, hrec.2⟩
      obtain ⟨hl, hd⟩ := hrec.1 a ha
      exact ⟨by simp only [List.length_cons]; omega, hd⟩

/-- C3: from a fresh tree over a non-empty point set, after `N` calls to
`split` every surviving quadrant address has `N` digits, all in `{0,1,2,3}`,
and the addresses are pairwise distinct; moreover every kept child entry of
any `split` call is its parent address with the child index appended, paired
with the corresponding child rectangle of `childBBox`. -/
theorem c3_addresses (pts : List Point) (hne : pts ≠ []) (crs4326 forceSquare : Bool)
    (ts : List Nat) :
    (∀ a ∈ (splitMany pts ts (initQT pts crs4326 forceSquare)).ids,
        a.length = ts.length ∧ ∀ d ∈ a, d < 4) ∧
    (splitMany pts ts (initQT pts crs4326 forceSquare)).ids.Nodup ∧
    (∀ (st : QTState) (th : Nat),
      ∀ e ∈ (splitStep pts th st).ids.zip (splitStep pts th st).bounds,
        ∃ pe ∈ st.ids.zip st.bounds, ∃ q, q < 4 ∧
          e.1 = pe.1 ++ [q] ∧ e.2 = childBBox q pe.2) := by
  have hinit1 : ∀ a ∈ (initQT pts crs4326 forceSquare).ids,
      a.length = 0 ∧ ∀ d ∈ a, d < 4 := by
    intro a ha
    simp only [initQT, List.mem_singleton] at ha
    subst ha
    simp
  have hinit2 : (initQT pts crs4326 forceSquare).ids.Nodup := by
    simp [initQT]
  have hmain := splitMany_addr_inv pts ts (initQT pts crs4326 forceSquare) 0 hinit1 hinit2
  refine ⟨fun a ha => by simpa using hmain.1 a ha, hmain.2, ?_⟩
  intro st th e he
  have hzip : (splitStep pts th st).ids.zip (splitStep pts th st).bounds
      = (st.ids.zip st.bounds).flatMap (keptChildren pts th) :=
    zip_map_fst_snd _
  rw [hzip] at he
  rcases List.mem_flatMap.mp he with ⟨pe, hpe, hein⟩
  rcases keptChildren_mem hein with ⟨q, hq, rfl⟩
  exact ⟨pe, hpe, q, hq, rfl, rfl⟩

/-- C3 witness: the theorem applied to a concrete one-point dataset and one
split. -/
theorem c3_witness :
    (∀ a ∈ (splitMany ptsIn [0] (initQT ptsIn true true)).ids,
        a.length = 1 ∧ ∀ d ∈ a, d < 4) ∧
    (splitMany ptsIn [0] (initQT ptsIn true true)).ids.Nodup ∧
    (∀ (st : QTState) (th : Nat),
      ∀ e ∈ (splitStep ptsIn th st).ids.zip (splitStep ptsIn th st).bounds,
        ∃ pe ∈ st.ids.zip st.bounds, ∃ q, q < 4 ∧
          e.1 = pe.1 ++ [q] ∧ e.2 = childBBox q pe.2) :=
  c3_addresses ptsIn (by simp [ptsIn]) true true [0]

end PyGrts

namespace PyGrts

/-! ### C4: point-count conservation of split -/

theorem inBox_child_imp {p : Point} {b : BBox}
    (hwf : b.left ≤ b.right ∧ b.bottom ≤ b.top) (q : Nat) (hq : q < 4)
    (h : inBox p (childBBox q b)) : inBox p b := by
  obtain ⟨hlr, hbt⟩ := hwf
  have hxc1 : b.left ≤ xcQ b := by unfold xcQ; linarith
  have hxc2 : xcQ b ≤ b.right := by unfold xcQ; linarith
  have hyc1 : b.bottom ≤ ycQ b := by unfold ycQ; linarith
  have hyc2 : ycQ b ≤ b.top := by unfold ycQ; linarith
  interval_cases q
  · obtain ⟨h1, h2, h3, h4⟩ := h
    exact ⟨h1, le_trans h2 hxc2, h3, le_trans h4 hyc2⟩
  · obtain ⟨h1, h2, h3, h4⟩ := h
    exact ⟨h1, le_trans h2 hxc2, le_trans hyc1 h3, h4⟩
  · obtain ⟨h1, h2, h3, h4⟩ := h
    exact ⟨le_trans hxc1 h1, h2, h3, le_trans h4 hyc2⟩
  · obtain ⟨h1, h2, h3, h4⟩ := h
    exact ⟨le_trans hxc1 h1, h2, le_trans hyc1 h3, h4⟩

theorem child_partition (p : Point) (b : BBox)
    (hwf : b.left ≤ b.right ∧ b.bottom ≤ b.top)
    (hmid : inBox p b → p.x ≠ xcQ b ∧ p.y ≠ ycQ b) :
    ((if inBox p (childBBox 0 b) then 1 else 0) +
     (if inBox p (childBBox 1 b) then 1 else 0) +
     (if inBox p (childBBox 2 b) then 1 else 0) +
     (if inBox p (childBBox 3 b) then 1 else 0) : Nat) =
      if inBox p b then 1 else 0 := by
  by_cases hin : inBox p b
  · obtain ⟨hx, hy⟩ := hmid hin
    obtain ⟨h1, h2, h3, h4⟩ := hin
    rcases lt_or_gt_of_ne hx with hxlt | hxgt <;>
      rcases lt_or_gt_of_ne hy with hylt | hygt
    · rw [if_pos (show inBox p (childBBox 0 b) from ⟨h1, le_of_lt hxlt, h3, le_of_lt hylt⟩),
        if_neg (show ¬ inBox p (childBBox 1 b) from
          fun h => absurd h.2.2.1 (not_le.mpr hylt)),
        if_neg (show ¬ inBox p (childBBox 2 b) from
          fun h => absurd h.1 (not_le.mpr hxlt)),
        if_neg (show ¬ inBox p (childBBox 3 b) from
          fun h => absurd h.1 (not_le.mpr hxlt)),
        if_pos (show inBox p b from ⟨h1, h2, h3, h4⟩)]
    · rw [if_neg (show ¬ inBox p (childBBox 0 b) from
          fun h => absurd h.2.2.2 (not_le.mpr hygt)),
        if_pos (show inBox p (childBBox 1 b) from ⟨h1, le_of_lt hxlt, le_of_lt hygt, h4⟩),
        if_neg (show ¬ inBox p (childBBox 2 b) from
          fun h => absurd h.2.2.2 (not_le.mpr hygt)),
        if_neg (show ¬ inBox p (childBBox 3 b) from
          fun h => absurd h.1 (not_le.mpr hxlt)),
        if_pos (show inBox p b from ⟨h1, h2, h3, h4⟩)]
    · rw [if_neg (show ¬ inBox p (childBBox 0 b) from
          fun h => absurd h.2.1 (not_le.mpr hxgt)),
        if_neg (show ¬ inBox p (childBBox 1 b) from
          fun h => absurd h.2.1 (not_le.mpr hxgt)),
        if_pos (show inBox p (childBBox 2 b) from ⟨le_of_lt hxgt, h2, h3, le_of_lt hylt⟩),
        if_neg (show ¬ inBox p (childBBox 3 b) from
          fun h => absurd h.2.2.1 (not_le.mpr hylt)),
        if_pos (show inBox p b from ⟨h1, h2, h3, h4⟩)]
    · rw [if_neg (show ¬ inBox p (childBBox 0 b) from
          fun h => absurd h.2.1 (not_le.mpr hxgt)),
        if_neg (show ¬ inBox p (childBBox 1 b) from
          fun h => absurd h.2.1 (not_le.mpr hxgt)),
        if_neg (show ¬ inBox p (childBBox 2 b) from
          fun h => absurd h.2.2.2 (not_le.mpr hygt)),
        if_pos (show inBox p (childBBox 3 b) from ⟨le_of_lt hxgt, h2, le_of_lt hygt, h4⟩),
        if_pos (show inBox p b from ⟨h1, h2, h3, h4⟩)]
  · have h0 : ¬ inBox p (childBBox 0 b) := fun h => hin (inBox_child_imp hwf 0 (by omega) h)
    have h1 : ¬ inBox p (childBBox 1 b) := fun h => hin (inBox_child_imp hwf 1 (by omega) h)
    have h2 : ¬ inBox p (childBBox 2 b) := fun h => hin (inBox_child_imp hwf 2 (by omega) h)
    have h3 : ¬ inBox p (childBBox 3 b) := fun h => hin (inBox_child_imp hwf 3 (by omega) h)
    rw [if_neg h0, if_neg h1, if_neg h2, if_neg h3, if_neg hin]

theorem countP_children (pts : List Point) (b : BBox)
    (hwf : b.left ≤ b.right ∧ b.bottom ≤ b.top)
    (hmid : ∀ p ∈ pts, inBox p b → p.x ≠ xcQ b ∧ p.y ≠ ycQ b) :
    (pts.countP fun p => decide (inBox p (childBBox 0 b))) +
    (pts.countP fun p => decide (inBox p (childBBox 1 b))) +
    (pts.countP fun p => decide (inBox p (childBBox 2 b))) +
    (pts.countP fun p => decide (inBox p (childBBox 3 b))) =
    pts.countP fun p => decide (inBox p b) := by
  induction pts with
  | nil => simp
  | cons p rest ih =>
      have hm := hmid p (List.mem_cons_self p rest)
      have hrest : ∀ p' ∈ rest, inBox p' b → p'.x ≠ xcQ b ∧ p'.y ≠ ycQ b :=
        fun p' hp' => hmid p' (List.mem_cons_of_mem p hp')
      have hpart := child_partition p b hwf hm
      have hsum := ih hrest
      simp only [List.countP_cons, decide_eq_true_eq]
      omega

theorem filterMap_ite {α β : Type} (l : List α) (c : α → Bool) (g : α → β) :
    (l.filterMap fun x => if c x then some (g x) else none) = (l.filter c).map g := by
  induction l with
  | nil => rfl
  | cons a l ih => by_cases h : c a <;> simp [h, ih]

theorem sum_flatMap_map {α β : Type} (l : List α) (f : α → List β) (g : β → Nat) :
    ((l.flatMap f).map g).sum = (l.map fun x => ((f x).map g).sum).sum := by
  induction l with
  | nil => simp
  | cons a l ih => simp [ih]

theorem sum_filter_split (l : List Nat) (c : Nat → Bool) (f : Nat → Nat) :
    ((l.filter c).map f).sum + ((l.filter fun q => ! c q).map f).sum = (l.map f).sum := by
  induction l with
  | nil => simp
  | cons a l ih => by_cases h : c a <;> simp [h] <;> omega

theorem sum_map_add {α : Type} (l : List α) (f g : α → Nat) :
    (l.map f).sum + (l.map g).sum = (l.map fun x => f x + g x).sum := by
  induction l with
  | nil => simp
  | cons a l ih => simp only [List.map_cons, List.sum_cons]; omega

theorem parent_split_count (pts : List Point) (th : Nat) (pe : List Nat × BBox)
    (hwf : pe.2.left ≤ pe.2.right ∧ pe.2.bottom ≤ pe.2.top)
    (hmid : ∀ p ∈ pts, inBox p pe.2 → p.x ≠ xcQ pe.2 ∧ p.y ≠ ycQ pe.2) :
    ((keptChildren pts th pe).map fun e => (intersectionIdx pts e.2).length).sum +
    (([0, 1, 2, 3].filter fun q => ! keepChild pts th (childBBox q pe.2)).map
        fun q => (intersectionIdx pts (childBBox q pe.2)).length).sum =
    (intersectionIdx pts pe.2).length := by
  have hkept : (keptChildren pts th pe).map (fun e => (intersectionIdx pts e.2).length)
      = ([0, 1, 2, 3].filter fun q => keepChild pts th (childBBox q pe.2)).map
          fun q => (intersectionIdx pts (childBBox q pe.2)).length := by
    unfold keptChildren
    rw [List.map_filterMap]
    have heq : (fun q =>
        ((if keepChild pts th (childBBox q pe.2)
          then some (pe.1 ++ [q], childBBox q pe.2) else none).map
            fun e => (intersectionIdx pts e.2).length))
        = fun q => if keepChild pts th (childBBox q pe.2)
            then some ((intersectionIdx pts (childBBox q pe.2)).length) else none := by
      funext q
      by_cases h : keepChild pts th (childBBox q pe.2) <;> simp [h]
    rw [heq, filterMap_ite]
  rw [hkept, sum_filter_split]
  simp only [List.map_cons, List.map_nil, List.sum_cons, List.sum_nil,
    intersectionIdx_length]
  have := countP_children pts pe.2 hwf hmid
  omega

/-- C4 (amended): provided every quadrant is well-formed and no dataset point
lies on a quadrant's splitting midlines, one `split` is point-count
conservative: the total contained point count of the surviving children plus
the point incidences of the pruned children equals the total count before the
split. -/
theorem c4_split_conservative (pts : List Point) (th : Nat) (s : QTState)
    (hLen : s.ids.length = s.bounds.length)
    (hwf : ∀ b ∈ s.bounds, b.left ≤ b.right ∧ b.bottom ≤ b.top)
    (hmid : ∀ b ∈ s.bounds, ∀ p ∈ pts, inBox p b → p.x ≠ xcQ b ∧ p.y ≠ ycQ b) :
    sumCounts pts (splitStep pts th s) + prunedSum pts th s = sumCounts pts s := by
  unfold sumCounts prunedSum splitStep
  simp only [List.map_map]
  rw [sum_flatMap_map, sum_map_add]
  have hterm : ((s.ids.zip s.bounds).map fun pe =>
      ((keptChildren pts th pe).map fun e => (intersectionIdx pts e.2).length).sum +
      (([0, 1, 2, 3].filter fun q => ! keepChild pts th (childBBox q pe.2)).map
          fun q => (intersectionIdx pts (childBBox q pe.2)).length).sum)
      = (s.ids.zip s.bounds).map fun pe => (intersectionIdx pts pe.2).length := by
    refine List.map_congr_left ?_
    intro pe hpe
    have hb : pe.2 ∈ s.bounds := (List.of_mem_zip hpe).2
    exact parent_split_count pts th pe (hwf pe.2 hb) (hmid pe.2 hb)
  have hgoal : ((s.ids.zip s.bounds).map fun pe =>
      ((keptChildren pts th pe).map fun e => (intersectionIdx pts e.2).length).sum +
      (([0, 1, 2, 3].filter fun q => ! keepChild pts th (childBBox q pe.2)).map
          fun q => (intersectionIdx pts (childBBox q pe.2)).length).sum).sum
      = (s.bounds.map fun b => (intersectionIdx pts b).length).sum := by
    rw [hterm]
    have hsnd : (s.ids.zip s.bounds).map Prod.snd = s.bounds :=
      List.map_snd_zip _ _ (le_of_eq hLen.symm)
    rw [show ((s.ids.zip s.bounds).map fun pe => (intersectionIdx pts pe.2).length)
        = ((s.ids.zip s.bounds).map Prod.snd).map fun b => (intersectionIdx pts b).length
      by rw [List.map_map]; rfl]
    rw [hsnd]
  exact hgoal

end PyGrts

namespace PyGrts

/-- C4 counterexample: a point at the center of the root quadrant lies in all
four children, so the count after one split is 4, not
`before - pruned = 1 - 0`. -/
theorem c4_counterexample :
    sumCounts ptsCenter (splitStep ptsCenter 0 stateRoot) = 4 ∧
    sumCounts ptsCenter stateRoot = 1 ∧
    prunedSum ptsCenter 0 stateRoot = 0 ∧
    sumCounts ptsCenter (splitStep ptsCenter 0 stateRoot) ≠
      sumCounts ptsCenter stateRoot - prunedSum ptsCenter 0 stateRoot := by
  have hc0 : childBBox 0 ⟨0, 0, 2, 2⟩ = ⟨0, 0, 1, 1⟩ := by
    norm_num [childBBox, xcQ, ycQ]
  have hc1 : childBBox 1 ⟨0, 0, 2, 2⟩ = ⟨0, 1, 1, 2⟩ := by
    norm_num [childBBox, xcQ, ycQ]
  have hc2 : childBBox 2 ⟨0, 0, 2, 2⟩ = ⟨1, 0, 2, 1⟩ := by
    norm_num [childBBox, xcQ, ycQ]
  have hc3 : childBBox 3 ⟨0, 0, 2, 2⟩ = ⟨1, 1, 2, 2⟩ := by
    norm_num [childBBox, xcQ, ycQ]
  have hi0 : intersectionIdx ptsCenter ⟨0, 0, 1, 1⟩ = [0] := by
    norm_num [ptsCenter, intersectionIdx, interAux, inBox]
  have hi1 : intersectionIdx ptsCenter ⟨0, 1, 1, 2⟩ = [0] := by
    norm_num [ptsCenter, intersectionIdx, interAux, inBox]
  have hi2 : intersectionIdx ptsCenter ⟨1, 0, 2, 1⟩ = [0] := by
    norm_num [ptsCenter, intersectionIdx, interAux, inBox]
  have hi3 : intersectionIdx ptsCenter ⟨1, 1, 2, 2⟩ = [0] := by
    norm_num [ptsCenter, intersectionIdx, interAux, inBox]
  have hiR : intersectionIdx ptsCenter ⟨0, 0, 2, 2⟩ = [0] := by
    norm_num [ptsCenter, intersectionIdx, interAux, inBox]
  have hk0 : keepChild ptsCenter 0 ⟨0, 0, 1, 1⟩ = true := by simp [keepChild, hi0]
  have hk1 : keepChild ptsCenter 0 ⟨0, 1, 1, 2⟩ = true := by simp [keepChild, hi1]
  have hk2 : keepChild ptsCenter 0 ⟨1, 0, 2, 1⟩ = true := by simp [keepChild, hi2]
  have hk3 : keepChild ptsCenter 0 ⟨1, 1, 2, 2⟩ = true := by simp [keepChild, hi3]
  have hkc : keptChildren ptsCenter 0 ([], ⟨0, 0, 2, 2⟩) =
      [([0], ⟨0, 0, 1, 1⟩), ([1], ⟨0, 1, 1, 2⟩), ([2], ⟨1, 0, 2, 1⟩), ([3], ⟨1, 1, 2, 2⟩)] := by
    simp [keptChildren, hc0, hc1, hc2, hc3, hk0, hk1, hk2, hk3]
  have hzip : stateRoot.ids.zip stateRoot.bounds = [([], ⟨0, 0, 2, 2⟩)] := by
    simp [stateRoot]
  refine ⟨?_, ?_, ?_, ?_⟩
  · show ((((stateRoot.ids.zip stateRoot.bounds).flatMap
        (keptChildren ptsCenter 0)).map Prod.snd).map
          fun b => (intersectionIdx ptsCenter b).length).sum = 4
    rw [hzip]
    simp [hkc, hi0, hi1, hi2, hi3]
  · show ((stateRoot.bounds.map fun b => (intersectionIdx ptsCenter b).length).sum) = 1
    simp [stateRoot, hiR]
  · show (((stateRoot.ids.zip stateRoot.bounds).map fun parent =>
        (([0, 1, 2, 3].filter fun q =>
            ! keepChild ptsCenter 0 (childBBox q parent.2)).map
          fun q => (intersectionIdx ptsCenter (childBBox q parent.2)).length).sum).sum) = 0
    rw [hzip]
    simp [hc0, hc1, hc2, hc3, hk0, hk1, hk2, hk3]
  · have h4 : sumCounts ptsCenter (splitStep ptsCenter 0 stateRoot) = 4 := by
      show ((((stateRoot.ids.zip stateRoot.bounds).flatMap
          (keptChildren ptsCenter 0)).map Prod.snd).map
            fun b => (intersectionIdx ptsCenter b).length).sum = 4
      rw [hzip]
      simp [hkc, hi0, hi1, hi2, hi3]
    have h1 : sumCounts ptsCenter stateRoot = 1 := by
      show ((stateRoot.bounds.map fun b => (intersectionIdx ptsCenter b).length).sum) = 1
      simp [stateRoot, hiR]
    have hp : prunedSum ptsCenter 0 stateRoot = 0 := by
      show (((stateRoot.ids.zip stateRoot.bounds).map fun parent =>
          (([0, 1, 2, 3].filter fun q =>
              ! keepChild ptsCenter 0 (childBBox q parent.2)).map
            fun q => (intersectionIdx ptsCenter (childBBox q parent.2)).length).sum).sum) = 0
      rw [hzip]
      simp [hc0, hc1, hc2, hc3, hk0, hk1, hk2, hk3]
    rw [h4, h1, hp]
    omega

/-- C4 witness: the amended theorem applied to interior points of the root
quadrant. -/
theorem c4_witness :
    sumCounts ptsIn (splitStep ptsIn 0 stateRoot) + prunedSum ptsIn 0 stateRoot =
      sumCounts ptsIn stateRoot :=
  c4_split_conservative ptsIn 0 stateRoot rfl
    (by
      intro b hb
      simp only [stateRoot, List.mem_singleton] at hb
      subst hb
      norm_num)
    (by
      intro b hb p hp hin
      simp only [stateRoot, List.mem_singleton] at hb
      subst hb
      simp only [ptsIn, List.mem_cons, List.not_mem_nil, or_false] at hp
      rcases hp with rfl | rfl | rfl | rfl
      all_goals constructor <;> norm_num [xcQ, ycQ])

end PyGrts

namespace PyGrts

/-! ### C8: split_recursive policy selection -/

/-- C8 (code defect): the prelude nulls out the losing policies by the
priority `first_null > max_length > max_samples`, but when none of the three
selectors is supplied it does not fail: `selectPolicy` never returns an
error (the `NameError` is dead code), and with the all-inactive policy the
loop break test is identically false, so the loop never stops. -/
theorem c8_policy_selection :
    selectPolicy (some 3) (some 2) true = Except.ok ⟨true, Option.none, Option.none⟩ ∧
    selectPolicy (some 3) (some 2) false = Except.ok ⟨false, some 2, Option.none⟩ ∧
    selectPolicy (some 3) Option.none false =
      Except.ok ⟨false, Option.none, some 3⟩ ∧
    selectPolicy Option.none Option.none false =
      Except.ok ⟨false, Option.none, Option.none⟩ ∧
    (∀ (ms : Option Int) (ml : Option ℚ) (fn : Bool),
      ∃ p, selectPolicy ms ml fn = Except.ok p) ∧
    (∀ (pts : List Point) (s : QTState) (oldC : Nat),
      loopStops ⟨false, Option.none, Option.none⟩ pts s oldC = false) := by
  refine ⟨rfl, rfl, rfl, rfl, ?_, ?_⟩
  · intro ms ml fn
    cases fn <;> cases ml <;> cases ms <;> exact ⟨_, rfl⟩
  · intro pts s oldC
    rfl

/-! ### C9: the count query -/

/-- C9 (code bug): `count(qid)` never returns a count: its pandas query
references a column named `id`, but the frame's id column is named `uid`, so
the query raises `UndefinedVariableError` for every tree state and address. -/
theorem c9_count_always_errors (pts : List Point) (s : QTState) (qid : List Nat) :
    countQ pts s qid =
      Except.error "UndefinedVariableError: name id is not defined" := by
  unfold countQ dfQueryEq toFrameColumns
  simp

/-! ### C2: the k-fold integrity checks -/

theorem duplicatedAny_iff (l : List (List Nat)) :
    duplicatedAny l = true ↔ ¬ l.Nodup := by
  induction l with
  | nil => simp [duplicatedAny]
  | cons a rest ih =>
      simp only [duplicatedAny, Bool.or_eq_true, decide_eq_true_eq, ih,
        List.nodup_cons]
      tauto

theorem isinAny_iff (xs ys : List (List Nat)) :
    isinAny xs ys = true ↔ ∃ u ∈ xs, u ∈ ys := by
  simp [isinAny]

/-- C2: a fold of `split_kfold` fails with a duplication/leakage error
exactly when its train uids contain a duplicate, its test uids contain a
duplicate, or some test uid occurs among the train uids; otherwise it yields
the `(train, test)` fold built from those very tables. -/
theorem c2_kfold_integrity (o : Oracle) (t : Nat) (pts : List Point)
    (full reduce : List GRow) (splitSize : Nat) (cfg : Config) (wm : WeightMethod) :
    ((∃ e, kfoldStep o t pts full reduce splitSize cfg wm = Except.error e) ↔
      (¬ (uidsOf (kfTrain o t pts full reduce splitSize cfg wm)).Nodup ∨
       ¬ (uidsOf (kfTest o t pts reduce splitSize cfg wm)).Nodup ∨
       ∃ u ∈ uidsOf (kfTest o t pts reduce splitSize cfg wm),
         u ∈ uidsOf (kfTrain o t pts full reduce splitSize cfg wm))) ∧
    ((∃ red t2, kfoldStep o t pts full reduce splitSize cfg wm =
        Except.ok (⟨kfTrain o t pts full reduce splitSize cfg wm,
          kfTrainIdx o t pts reduce splitSize cfg wm,
          kfTest o t pts reduce splitSize cfg wm,
          kfTestIdx o t pts reduce splitSize cfg wm⟩, red, t2)) ↔
      ¬ (¬ (uidsOf (kfTrain o t pts full reduce splitSize cfg wm)).Nodup ∨
         ¬ (uidsOf (kfTest o t pts reduce splitSize cfg wm)).Nodup ∨
         ∃ u ∈ uidsOf (kfTest o t pts reduce splitSize cfg wm),
           u ∈ uidsOf (kfTrain o t pts full reduce splitSize cfg wm))) := by
  rw [← duplicatedAny_iff, ← duplicatedAny_iff, ← isinAny_iff]
  by_cases h1 : duplicatedAny (uidsOf (kfTrain o t pts full reduce splitSize cfg wm)) = true <;>
    by_cases h2 : duplicatedAny (uidsOf (kfTest o t pts reduce splitSize cfg wm)) = true <;>
      by_cases h3 : isinAny (uidsOf (kfTest o t pts reduce splitSize cfg wm))
          (uidsOf (kfTrain o t pts full reduce splitSize cfg wm)) = true <;>
        simp [kfoldStep, h1, h2, h3]

end PyGrts

namespace PyGrts

/-! ### C5 / C10: weight_upsample -/

theorem flatMap_nil_of {α β : Type} (l : List α) (f : α → List β)
    (h : ∀ x ∈ l, f x = []) : l.flatMap f = [] := by
  induction l with
  | nil => rfl
  | cons a l ih => simp [h a (by simp), ih fun x hx => h x (by simp [hx])]

theorem maxListNat_const : ∀ (l : List Nat) (c : Nat),
    (∀ x ∈ l, x = c) → l ≠ [] → maxListNat l = c := by
  intro l
  induction l with
  | nil => intro c _ h; exact absurd rfl h
  | cons a rest ih =>
      intro c hall _
      have ha : a = c := hall a (by simp)
      by_cases hrest : rest = []
      · subst hrest; simp [maxListNat, ha]
      · have hr := ih c (fun x hx => hall x (by simp [hx])) hrest
        have hstep : maxListNat (a :: rest) = max a (maxListNat rest) := rfl
        rw [hstep, hr, ha]
        omega

theorem nodup_count_le_one {α : Type} [BEq α] [LawfulBEq α] {l : List α}
    (h : l.Nodup) (a : α) : l.count a ≤ 1 := by
  induction l with
  | nil => simp
  | cons b rest ih =>
      rw [List.count_cons]
      have hnc := List.nodup_cons.mp h
      by_cases hba : (b == a) = true
      · have hane : a ∉ rest := by
          have : b = a := eq_of_beq hba
          subst this
          exact hnc.1
        have hz : rest.count a = 0 := List.count_eq_zero.mpr hane
        simp [hba, hz]
      · have := ih hnc.2
        have hz : ((if b == a then 1 else 0) : Nat) = 0 := by simp [hba]
        omega

theorem count_uid_flatMap {α : Type} (l : List α) (g : α → List GRow) (u : List Nat) :
    ((l.flatMap g).map GRow.uid).count u = (l.map fun v => ((g v).map GRow.uid).count u).sum := by
  induction l with
  | nil => simp
  | cons a l ih => simp [List.count_append, ih]

theorem sum_map_zero {α : Type} (l : List α) (h : α → Nat)
    (hz : ∀ v ∈ l, h v = 0) : (l.map h).sum = 0 := by
  induction l with
  | nil => simp
  | cons a l ih => simp [hz a (by simp), ih fun v hv => hz v (by simp [hv])]

theorem sum_single_term {α : Type} [DecidableEq α] :
    ∀ (l : List α), l.Nodup → ∀ a ∈ l, ∀ (h : α → Nat),
      (∀ v ∈ l, v ≠ a → h v = 0) → (l.map h).sum = h a := by
  intro l
  induction l with
  | nil => intro _ a ha; simp at ha
  | cons b rest ih =>
      intro hn a ha h hz
      simp only [List.map_cons, List.sum_cons]
      rcases List.mem_cons.mp ha with rfl | ha2
      · have hrest : ∀ v ∈ rest, h v = 0 := fun v hv =>
          hz v (List.mem_cons_of_mem _ hv)
            (fun he => (List.nodup_cons.mp hn).1 (he ▸ hv))
        rw [sum_map_zero rest h hrest]
        omega
      · have hb : h b = 0 :=
          hz b (by simp) fun he => (List.nodup_cons.mp hn).1 (by rw [he]; exact ha2)
        rw [hb,
          ih (List.nodup_cons.mp hn).2 a ha2 h
            fun v hv hne => hz v (List.mem_cons_of_mem _ hv) hne]
        omega

theorem sum_ite_count (L : List GRow) (u : List Nat) (K : Nat) :
    (L.map fun g => if g.uid = u then K else 0).sum = K * ((L.map GRow.uid).count u) := by
  induction L with
  | nil => simp
  | cons g L ih =>
      by_cases h : g.uid = u <;>
        simp [h, ih, List.count_cons] <;> ring

/-- The occurrence count of a row with oversample factor above 1 after
`weight_upsample` with `inverse-density`: one original occurrence plus
`int(factor)` appended copies. -/
theorem wu_count_inverse (tbl : List GRow) (r : GRow) (hr : r ∈ tbl)
    (hnodup : (uidsOf tbl).Nodup)
    (hover : 1 < (maxQcount tbl : ℚ) / (r.qcounts : ℚ)) :
    countUid (weightUpsample tbl WeightMethod.inverseDensity) r.uid =
      1 + ratFloorNat ((maxQcount tbl : ℚ) / (r.qcounts : ℚ)) := by
  have hnodup2 : (tbl.map GRow.uid).Nodup := hnodup
  have hTblNodup : tbl.Nodup := List.Nodup.of_map GRow.uid hnodup2
  have hinj : ∀ g ∈ tbl, g.uid = r.uid → g = r := fun g hg he =>
    (List.nodup_map_iff_inj_on hTblNodup).mp hnodup2 g hg r hr he
  have hK1 : 1 ≤ ratFloorNat ((maxQcount tbl : ℚ) / (r.qcounts : ℚ)) := by
    unfold ratFloorNat
    have hfl : (1 : Int) ≤ ⌊(maxQcount tbl : ℚ) / (r.qcounts : ℚ)⌋ := by
      rw [Int.le_floor]
      push_cast
      linarith
    omega
  have hbr : overRows tbl WeightMethod.inverseDensity =
      (uniqueSorted (oversampleVals tbl)).flatMap fun v =>
        if 1 < v then
          (tbl.filter fun g =>
            decide ((maxQcount tbl : ℚ) / (g.qcounts : ℚ) = v)).flatMap
            fun g => List.replicate (ratFloorNat v) g
        else [] := by
    unfold overRows
    simp
  have hfr_mem : (maxQcount tbl : ℚ) / (r.qcounts : ℚ) ∈
      uniqueSorted (oversampleVals tbl) := by
    unfold uniqueSorted
    rw [List.mem_insertionSort, List.mem_dedup]
    exact List.mem_map.mpr ⟨r, hr, rfl⟩
  have hr_in_group : r ∈ (tbl.filter fun g =>
      decide ((maxQcount tbl : ℚ) / (g.qcounts : ℚ) =
        (maxQcount tbl : ℚ) / (r.qcounts : ℚ))).flatMap
      fun g => List.replicate
        (ratFloorNat ((maxQcount tbl : ℚ) / (r.qcounts : ℚ))) g := by
    refine List.mem_flatMap.mpr ⟨r, ?_, ?_⟩
    · exact List.mem_filter.mpr ⟨hr, by simp⟩
    · exact List.mem_replicate.mpr ⟨by omega, rfl⟩
  have hne : overRows tbl WeightMethod.inverseDensity ≠ [] := by
    rw [hbr]
    intro h0
    have hmem : r ∈ (uniqueSorted (oversampleVals tbl)).flatMap fun v =>
        if 1 < v then
          (tbl.filter fun g =>
            decide ((maxQcount tbl : ℚ) / (g.qcounts : ℚ) = v)).flatMap
            fun g => List.replicate (ratFloorNat v) g
        else [] := by
      refine List.mem_flatMap.mpr
        ⟨(maxQcount tbl : ℚ) / (r.qcounts : ℚ), hfr_mem, ?_⟩
      rw [if_pos hover]
      exact hr_in_group
    rw [h0] at hmem
    simp at hmem
  show ((weightUpsample tbl WeightMethod.inverseDensity).map GRow.uid).count r.uid = _
  unfold weightUpsample
  rw [if_neg hne]
  unfold sortRows
  have hperm : List.count r.uid
      (List.map GRow.uid (List.insertionSort (fun a b => lexLe a.uid b.uid = true)
        (tbl ++ overRows tbl WeightMethod.inverseDensity))) =
      List.count r.uid
        (List.map GRow.uid (tbl ++ overRows tbl WeightMethod.inverseDensity)) :=
    List.Perm.countP_eq (fun x => x == r.uid)
      (List.Perm.map GRow.uid (List.perm_insertionSort _ _))
  rw [hperm]
  rw [List.map_append, List.count_append]
  have hc1 : (tbl.map GRow.uid).count r.uid = 1 := by
    have hle : (tbl.map GRow.uid).count r.uid ≤ 1 := nodup_count_le_one hnodup2 r.uid
    have hge : 0 < (tbl.map GRow.uid).count r.uid :=
      List.count_pos_iff.mpr (List.mem_map.mpr ⟨r, hr, rfl⟩)
    omega
  rw [hc1, hbr, count_uid_flatMap]
  have hUniqNodup : (uniqueSorted (oversampleVals tbl)).Nodup := by
    unfold uniqueSorted
    exact ((List.perm_insertionSort _ _).nodup_iff).mpr (List.nodup_dedup _)
  have hz : ∀ v ∈ uniqueSorted (oversampleVals tbl),
      v ≠ (maxQcount tbl : ℚ) / (r.qcounts : ℚ) →
      (((if 1 < v then
          (tbl.filter fun g =>
            decide ((maxQcount tbl : ℚ) / (g.qcounts : ℚ) = v)).flatMap
            fun g => List.replicate (ratFloorNat v) g
        else []).map GRow.uid).count r.uid) = 0 := by
    intro v hv hvne
    by_cases h1v : 1 < v
    · rw [if_pos h1v, count_uid_flatMap]
      apply sum_map_zero
      intro g hg
      have hgf := List.mem_filter.mp hg
      have hgv : (maxQcount tbl : ℚ) / (g.qcounts : ℚ) = v := by
        simpa using hgf.2
      have hgne : g.uid ≠ r.uid := fun he =>
        hvne (by rw [← hgv, hinj g hgf.1 he])
      rw [List.map_replicate, List.count_replicate]
      simp [hgne]
    · rw [if_neg h1v]; simp
  rw [sum_single_term _ hUniqNodup _ hfr_mem _ hz, if_pos hover, count_uid_flatMap]
  have hmapite : ((tbl.filter fun g =>
      decide ((maxQcount tbl : ℚ) / (g.qcounts : ℚ) =
        (maxQcount tbl : ℚ) / (r.qcounts : ℚ))).map
      fun g => ((List.replicate
        (ratFloorNat ((maxQcount tbl : ℚ) / (r.qcounts : ℚ))) g).map GRow.uid).count r.uid)
      = (tbl.filter fun g =>
      decide ((maxQcount tbl : ℚ) / (g.qcounts : ℚ) =
        (maxQcount tbl : ℚ) / (r.qcounts : ℚ))).map
      fun g => if g.uid = r.uid
        then ratFloorNat ((maxQcount tbl : ℚ) / (r.qcounts : ℚ)) else 0 := by
    refine List.map_congr_left ?_
    intro g _
    rw [List.map_replicate, List.count_replicate]
    by_cases h : g.uid = r.uid <;> simp [h]
  rw [hmapite, sum_ite_count]
  have hcf : ((tbl.filter fun g =>
      decide ((maxQcount tbl : ℚ) / (g.qcounts : ℚ) =
        (maxQcount tbl : ℚ) / (r.qcounts : ℚ))).map GRow.uid).count r.uid = 1 := by
    have hle : ((tbl.filter fun g =>
        decide ((maxQcount tbl : ℚ) / (g.qcounts : ℚ) =
          (maxQcount tbl : ℚ) / (r.qcounts : ℚ))).map GRow.uid).count r.uid ≤
        (tbl.map GRow.uid).count r.uid :=
      List.Sublist.count_le (List.Sublist.map GRow.uid (List.filter_sublist tbl)) r.uid
    have hpos : 0 < ((tbl.filter fun g =>
        decide ((maxQcount tbl : ℚ) / (g.qcounts : ℚ) =
          (maxQcount tbl : ℚ) / (r.qcounts : ℚ))).map GRow.uid).count r.uid :=
      List.count_pos_iff.mpr
        (List.mem_map.mpr ⟨r, List.mem_filter.mpr ⟨hr, by simp⟩, rfl⟩)
    omega
  rw [hcf]
  simp

/-- C5 (amended): under `inverse-density`, the oversample factor of each
quadrant is `max(counts)/count`, and a uid-distinct quadrant whose factor
exceeds 1 appears `int(factor)` (truncation, not `round`) additional times in
the output table; on counts `[10, 5, 1]` the factors are `[1, 2, 10]`. -/
theorem c5_inverse_density_upsample :
    (∀ (tbl : List GRow) (r : GRow), r ∈ tbl → (uidsOf tbl).Nodup →
      1 < (maxQcount tbl : ℚ) / (r.qcounts : ℚ) →
      countUid (weightUpsample tbl WeightMethod.inverseDensity) r.uid =
        1 + ratFloorNat ((maxQcount tbl : ℚ) / (r.qcounts : ℚ))) ∧
    oversampleVals tblTen = [1, 2, 10] := by
  constructor
  · intro tbl r hr hn hov
    exact wu_count_inverse tbl r hr hn hov
  · norm_num [oversampleVals, tblTen, maxQcount, maxListNat]

/-- C5 witness: the count-1 row of the `[10, 5, 1]` table. -/
theorem c5_witness :
    countUid (weightUpsample tblTen WeightMethod.inverseDensity) [2] =
      1 + ratFloorNat ((maxQcount tblTen : ℚ) / ((1 : Nat) : ℚ)) :=
  c5_inverse_density_upsample.1 tblTen ⟨[2], ⟨1, 0, 2, 1⟩, 1⟩
    (by simp [tblTen]) (by decide)
    (by norm_num [maxQcount, maxListNat, tblTen])

/-- C5 counterexample: on counts `[3, 2]` the count-2 row has factor `3/2`;
the code appends `int(3/2) = 1` copy (2 total occurrences), while the claim
(`round`) demands 2 additional copies. -/
theorem c5_counterexample :
    countUid (weightUpsample tbl32 WeightMethod.inverseDensity) [1] = 2 ∧
    pyRound ((maxQcount tbl32 : ℚ) / ((2 : Nat) : ℚ)) = 2 ∧
    (countUid (weightUpsample tbl32 WeightMethod.inverseDensity) [1] : Int) - 1 ≠
      pyRound ((maxQcount tbl32 : ℚ) / ((2 : Nat) : ℚ)) := by
  have hmax : maxQcount tbl32 = 3 := by norm_num [maxQcount, maxListNat, tbl32]
  have hfl : ⌊((3 : Nat) : ℚ) / ((2 : Nat) : ℚ)⌋ = 1 := by
    rw [Int.floor_eq_iff]
    push_cast
    norm_num
  have hcount : countUid (weightUpsample tbl32 WeightMethod.inverseDensity) [1] = 2 := by
    have h := wu_count_inverse tbl32 ⟨[1], ⟨0, 1, 1, 2⟩, 2⟩
      (by simp [tbl32]) (by decide)
      (by rw [show maxQcount tbl32 = 3 from hmax]; norm_num)
    rw [hmax] at h
    rw [h]
    unfold ratFloorNat
    rw [hfl]
    decide
  have hround : pyRound ((maxQcount tbl32 : ℚ) / ((2 : Nat) : ℚ)) = 2 := by
    rw [hmax]
    unfold pyRound
    rw [hfl]
    norm_num
  exact ⟨hcount, hround, by rw [hcount, hround]; norm_num⟩

/-- C10: when all quadrants share one positive count, every oversample factor
is 1, so `weight_upsample` returns the input unchanged under both density
methods. -/
theorem c10_uniform_unchanged (tbl : List GRow) (c : Nat)
    (hall : ∀ r ∈ tbl, r.qcounts = c) (hc : 0 < c) :
    weightUpsample tbl WeightMethod.inverseDensity = tbl ∧
    weightUpsample tbl WeightMethod.densityFactor = tbl := by
  have hval : ∀ v ∈ uniqueSorted (oversampleVals tbl), v = 1 := by
    intro v hv
    unfold uniqueSorted at hv
    rw [List.mem_insertionSort, List.mem_dedup] at hv
    unfold oversampleVals at hv
    rcases List.mem_map.mp hv with ⟨g, hg, rfl⟩
    have hmax : maxQcount tbl = c := by
      unfold maxQcount
      refine maxListNat_const _ c ?_ ?_
      · intro x hx
        rcases List.mem_map.mp hx with ⟨g2, hg2, rfl⟩
        exact hall g2 hg2
      · simpa using List.ne_nil_of_mem hg
    rw [hmax, hall g hg]
    exact div_self (by exact_mod_cast hc.ne')
  have hI : overRows tbl WeightMethod.inverseDensity = [] := by
    unfold overRows
    apply flatMap_nil_of
    intro v hv
    rw [hval v hv]
    norm_num
  have hD : overRows tbl WeightMethod.densityFactor = [] := by
    unfold overRows
    apply flatMap_nil_of
    intro v hv
    rw [hval v hv]
    norm_num
  refine ⟨?_, ?_⟩
  · unfold weightUpsample
    rw [hI]
    simp
  · unfold weightUpsample
    rw [hD]
    simp

/-- C10 witness: a concrete two-row table with uniform counts. -/
theorem c10_witness :
    weightUpsample tblFive WeightMethod.inverseDensity = tblFive ∧
    weightUpsample tblFive WeightMethod.densityFactor = tblFive :=
  c10_uniform_unchanged tblFive 5
    (by
      intro r hr
      simp only [tblFive, List.mem_cons, List.not_mem_nil, or_false] at hr
      rcases hr with rfl | rfl <;> rfl)
    (by norm_num)

end PyGrts

namespace PyGrts

/-! ### C6: distance-to-boundary selection weights -/

theorem le_foldl_max_of_le {a b : ℚ} (l : List ℚ) (h : b ≤ a) :
    b ≤ l.foldl max a :=
  le_trans h (le_foldl_max l a)

theorem mem_le_foldl_max : ∀ (l : List ℚ) (a x : ℚ), x ∈ l → x ≤ l.foldl max a := by
  intro l
  induction l with
  | nil => intro a x hx; simp at hx
  | cons c r ih =>
      intro a x hx
      rcases List.mem_cons.mp hx with rfl | hx2
      · exact le_foldl_max_of_le r (le_max_right a x)
      · exact ih (max a c) x hx2

theorem le_maxList (l : List ℚ) (x : ℚ) (hx : x ∈ l) : x ≤ maxList l := by
  match l with
  | [] => simp at hx
  | a :: r =>
      rcases List.mem_cons.mp hx with rfl | hx2
      · exact le_foldl_max r x
      · exact mem_le_foldl_max r a x hx2

theorem clipQ_mono {lo hi a b : ℚ} (h : a ≤ b) : clipQ lo hi a ≤ clipQ lo hi b := by
  unfold clipQ
  exact min_le_min (le_refl hi) (max_le_max (le_refl lo) h)

theorem div_mono_nonneg {a b s : ℚ} (h : a ≤ b) (hs : 0 ≤ s) : a / s ≤ b / s := by
  rcases eq_or_lt_of_le hs with heq | hpos
  · rw [← heq]
    simp
  · exact (div_le_div_iff_of_pos_right hpos).mpr h

/-- C6 (amended): candidate distances to the quadrant boundary are
nonnegative, and the normalized clipped weights of `_sample_grids` are
monotone NON-INCREASING in that distance: a candidate farther from the
boundary never receives a LARGER selection weight than a nearer one (the
scheme favors edge points). -/
theorem c6_distance_weight_monotone :
    (∀ (p : Point) (b : BBox), inBox p b → 0 ≤ distExterior p b) ∧
    (∀ (ds : List ℚ) (mult : ℚ), (∀ d ∈ ds, 0 ≤ d) → 0 ≤ mult →
      ∀ (i j : Nat), i < ds.length → j < ds.length → ds.getD i 0 ≤ ds.getD j 0 →
        (distanceWeights ds mult).getD j 0 ≤ (distanceWeights ds mult).getD i 0) := by
  constructor
  · intro p b hin
    unfold distExterior
    rw [if_pos hin]
    obtain ⟨h1, h2, h3, h4⟩ := hin
    simp only [le_min_iff]
    refine ⟨⟨by linarith, by linarith⟩, by linarith, by linarith⟩
  · intro ds mult hnn hm i j hi hj hd
    have hm0 : 0 ≤ maxList ds := by
      have hmem : ds.getD i 0 ∈ ds := by
        rw [List.getD_eq_getElem _ _ hi]
        exact List.getElem_mem hi
      exact le_trans (hnn _ hmem) (le_maxList ds _ hmem)
    have hlen : (distanceWeights ds mult).length = ds.length := by
      simp [distanceWeights]
    have hself : ∀ (k : Nat) (hk : k < ds.length),
        (distanceWeights ds mult).getD k 0 =
          clipQ (1/10) 1 (1 - ds.getD k 0 / maxList ds) * mult /
            (ds.map fun d => clipQ (1/10) 1 (1 - d / maxList ds) * mult).sum := by
      intro k hk
      unfold distanceWeights
      rw [List.getD_eq_getElem _ _ (by simpa using hk)]
      rw [List.getElem_map, List.getElem_map, List.getD_eq_getElem _ _ hk]
    rw [hself j hj, hself i hi]
    have hsum : 0 ≤ (ds.map fun d => clipQ (1/10) 1 (1 - d / maxList ds) * mult).sum := by
      apply List.sum_nonneg
      intro x hx
      rcases List.mem_map.mp hx with ⟨d, hdm, rfl⟩
      have hcl : (1 : ℚ)/10 ≤ clipQ (1/10) 1 (1 - d / maxList ds) := by
        unfold clipQ
        exact le_min (by norm_num) (le_max_left _ _)
      have : (0 : ℚ) ≤ clipQ (1/10) 1 (1 - d / maxList ds) := by linarith
      exact mul_nonneg this hm
    apply div_mono_nonneg ?_ hsum
    apply mul_le_mul_of_nonneg_right ?_ hm
    apply clipQ_mono
    have : ds.getD i 0 / maxList ds ≤ ds.getD j 0 / maxList ds :=
      div_mono_nonneg hd hm0
    linarith

/-- C6 counterexample: candidate distances `[0, 1]` (a boundary point and an
interior point) with multiplier 1 give weights `[10/11, 1/11]`: the farther
candidate receives the SMALLER weight, refuting the claim as stated. -/
theorem c6_counterexample :
    distanceWeights [0, 1] 1 = [10/11, 1/11] ∧
    ¬ ((distanceWeights [0, 1] 1).getD 0 0 ≤ (distanceWeights [0, 1] 1).getD 1 0) := by
  have hmax : maxList [(0 : ℚ), 1] = 1 := by
    norm_num [maxList]
  have hw : distanceWeights [0, 1] 1 = [10/11, 1/11] := by
    unfold distanceWeights
    rw [hmax]
    norm_num [clipQ]
  refine ⟨hw, ?_⟩
  rw [hw]
  norm_num

/-- C6 witness: the amended theorem at an interior point and at distances
`[0, 1]`. -/
theorem c6_witness :
    0 ≤ distExterior ⟨1/2, 1/2, 0⟩ ⟨0, 0, 1, 1⟩ ∧
    (distanceWeights [0, 1] 1).getD 1 0 ≤ (distanceWeights [0, 1] 1).getD 0 0 :=
  ⟨c6_distance_weight_monotone.1 ⟨1/2, 1/2, 0⟩ ⟨0, 0, 1, 1⟩ (by norm_num [inBox]),
    c6_distance_weight_monotone.2 [0, 1] 1
      (by
        intro d hd
        rcases List.mem_cons.mp hd with rfl | hd2
        · norm_num
        · simp only [List.mem_singleton] at hd2
          subst hd2
          norm_num)
      (by norm_num) 0 1 (by norm_num) (by norm_num) (by norm_num)⟩

end PyGrts

namespace PyGrts

/-! ### C1: disjointness of split sets -/

theorem everyNthAux_sub {α : Type} :
    ∀ (l : List α) (k c : Nat), ∀ x ∈ everyNthAux l k c, x ∈ l := by
  intro l
  induction l with
  | nil => intro k c x hx; simp [everyNthAux] at hx
  | cons a rest ih =>
      intro k c x hx
      cases c with
      | zero =>
          rcases List.mem_cons.mp (by simpa [everyNthAux] using hx) with rfl | h2
          · simp
          · exact List.mem_cons_of_mem _ (ih k (k - 1) x h2)
      | succ c =>
          exact List.mem_cons_of_mem _ (ih k c x (by simpa [everyNthAux] using hx))

theorem everyNth_sub {α : Type} (l : List α) (k : Nat) :
    ∀ x ∈ everyNth l k, x ∈ l := by
  intro x hx
  unfold everyNth at hx
  by_cases hk : k = 0
  · rw [if_pos hk] at hx
    simp at hx
  · rw [if_neg hk] at hx
    exact everyNthAux_sub l k 0 x hx

theorem strataLoop_sub (o : Oracle) (pts : List Point) (cfg : Config)
    (cand : List Nat) (hOK : OracleOK o) :
    ∀ (vs : List Nat) (t : Nat), ∀ x ∈ (strataLoop o pts cfg cand t vs).1, x ∈ cand := by
  intro vs
  induction vs with
  | nil => intro t x hx; simp [strataLoop] at hx
  | cons v vs ih =>
      intro t x hx
      simp only [strataLoop] at hx
      rcases List.mem_append.mp hx with h1 | h2
      · exact List.mem_of_mem_filter (hOK.2.2.1 t _ _ x h1)
      · exact ih (t + 1) x h2

theorem selectInGrid_origin (o : Oracle) (t : Nat) (g : GRow) (pts : List Point)
    (cfg : Config) (hOK : OracleOK o) :
    ∀ x ∈ (selectInGrid o t g pts cfg).1, x ∈ intersectionIdx pts g.bounds := by
  intro x hx
  by_cases hs : cfg.useStrata
  · simp only [selectInGrid, hs, if_true] at hx
    exact hOK.1 t _ x (strataLoop_sub o pts cfg _ hOK _ _ x hx)
  · by_cases hw : cfg.weightByDistance
    · simp only [selectInGrid, hs, hw, if_true, if_false, Bool.false_eq_true] at hx
      exact hOK.1 t _ x (hOK.2.2.2 _ _ _ _ x hx)
    · simp only [selectInGrid, hs, hw, if_false, Bool.false_eq_true] at hx
      exact hOK.1 t _ x (List.mem_of_mem_take hx)

theorem gridLoop_origin (o : Oracle) (pts : List Point) (cfg : Config)
    (hOK : OracleOK o) :
    ∀ (rows : List GRow) (t : Nat), ∀ x ∈ (gridLoop o pts cfg t rows).1,
      ∃ g ∈ rows, x ∈ intersectionIdx pts g.bounds := by
  intro rows
  induction rows with
  | nil => intro t x hx; simp [gridLoop] at hx
  | cons g gs ih =>
      intro t x hx
      simp only [gridLoop] at hx
      rcases List.mem_append.mp hx with h1 | h2
      · exact ⟨g, by simp, selectInGrid_origin o t g pts cfg hOK x h1⟩
      · rcases ih _ x h2 with ⟨g2, hg2, hxi⟩
        exact ⟨g2, by simp [hg2], hxi⟩

theorem topupExt_sub (o : Oracle) (t : Nat) (pool dfS : List GRow) (n : Nat)
    (hOK : OracleOK o) :
    ∀ g ∈ topupExt o t pool dfS n, g ∈ dfS ∨ g ∈ pool := by
  intro g hg
  unfold topupExt at hg
  by_cases hc : 2 * n > pool.length
  · rw [if_pos hc] at hg
    rcases List.mem_append.mp hg with h1 | h2
    · exact Or.inl h1
    · exact Or.inr (List.mem_of_mem_filter (hOK.2.1 t _ _ g h2))
  · rw [if_neg hc] at hg
    exact Or.inl hg

theorem topupExt_eq (o : Oracle) (t : Nat) (pool dfS : List GRow) (n : Nat)
    (h : 2 * n ≤ pool.length) : topupExt o t pool dfS n = dfS := by
  unfold topupExt
  rw [if_neg (by omega)]

theorem sampleGridsF_origin (o : Oracle) (t : Nat) (pool dfS : List GRow) (n : Nat)
    (pts : List Point) (cfg : Config) (hOK : OracleOK o) :
    ∀ i ∈ (sampleGridsF o t pool dfS n pts cfg).1,
      ∃ g ∈ topupExt o t pool dfS n, i ∈ intersectionIdx pts g.bounds := by
  intro i hi
  simp only [sampleGridsF, sortNat] at hi
  rw [List.mem_insertionSort, List.mem_dedup] at hi
  exact gridLoop_origin o pts cfg hOK _ _ i hi

theorem ssf_grid_sub (o : Oracle) (t : Nat) (df : List GRow) (n : Nat)
    (pts : List Point) (cfg : Config) (ss : Bool) :
    ∀ g ∈ (sampleSplitF o t df n pts cfg ss).grid, g ∈ df := by
  intro g hg
  have hgrid : (sampleSplitF o t df n pts cfg ss).grid =
      everyNth (sampleSplitF o t df n pts cfg ss).pool
        (getSkip (sampleSplitF o t df n pts cfg ss).pool.length n) := rfl
  rw [hgrid] at hg
  have hg2 := everyNth_sub _ _ g hg
  have hpool : (sampleSplitF o t df n pts cfg ss).pool =
      if ss then df.drop (o.choice t (getSkip df.length n)) else df := rfl
  rw [hpool] at hg2
  cases ss with
  | false => simpa using hg2
  | true =>
      simp only [if_true] at hg2
      exact List.mem_of_mem_drop hg2

theorem ssf_idx_origin (o : Oracle) (t : Nat) (df : List GRow) (n : Nat)
    (pts : List Point) (cfg : Config) (ss : Bool) (hOK : OracleOK o)
    (hTop : 2 * n ≤ (sampleSplitF o t df n pts cfg ss).pool.length) :
    ∀ i ∈ (sampleSplitF o t df n pts cfg ss).idx,
      ∃ g ∈ (sampleSplitF o t df n pts cfg ss).grid,
        i ∈ intersectionIdx pts g.bounds := by
  intro i hi
  have hidx : (sampleSplitF o t df n pts cfg ss).idx =
      (sampleGridsF o (if ss then t + 1 else t) (sampleSplitF o t df n pts cfg ss).pool
        (sampleSplitF o t df n pts cfg ss).grid n pts cfg).1 := rfl
  rw [hidx] at hi
  rcases sampleGridsF_origin o _ _ _ n pts cfg hOK i hi with ⟨g, hg, hgi⟩
  rw [topupExt_eq _ _ _ _ _ hTop] at hg
  exact ⟨g, hg, hgi⟩

theorem kfoldStep_ok_disjoint (o : Oracle) (t : Nat) (pts : List Point)
    (full reduce : List GRow) (ss : Nat) (cfg : Config) (wm : WeightMethod)
    (r : Fold × List GRow × Nat)
    (h : kfoldStep o t pts full reduce ss cfg wm = Except.ok r) :
    (∀ u ∈ uidsOf r.1.testGrid, u ∉ uidsOf r.1.trainGrid) ∧
    (∀ i ∈ r.1.testIdx, i ∉ r.1.trainIdx) := by
  simp only [kfoldStep] at h
  split at h
  · exact absurd h (by simp)
  · split at h
    · exact absurd h (by simp)
    · split at h
      · exact absurd h (by simp)
      · have hr : r.1 = ⟨kfTrain o t pts full reduce ss cfg wm,
            kfTrainIdx o t pts reduce ss cfg wm,
            kfTest o t pts reduce ss cfg wm,
            kfTestIdx o t pts reduce ss cfg wm⟩ := by
          have := (Except.ok.injEq _ _).mp h.symm
          rw [this]
        constructor
        · intro u hu hu2
          rw [hr] at hu hu2
          have hu3 : u ∈ uidsOf (kfTest o t pts reduce ss cfg wm) := hu
          have hu4 : u ∈ uidsOf (kfTrain o t pts full reduce ss cfg wm) := hu2
          rcases List.mem_map.mp hu4 with ⟨g, hg, rfl⟩
          have hpf := (List.mem_filter.mp hg).2
          simp only [decide_eq_true_eq] at hpf
          exact hpf hu3
        · intro i hi hi2
          rw [hr] at hi hi2
          have hi3 : i ∈ kfTestIdx o t pts reduce ss cfg wm := hi
          have hi4 : i ∈ kfTrainIdx o t pts reduce ss cfg wm := hi2
          have hpf := (List.mem_filter.mp hi4).2
          simp only [decide_eq_true_eq] at hpf
          exact hpf hi3

theorem kfoldGo_disjoint (o : Oracle) (pts : List Point) (full : List GRow)
    (ss : Nat) (cfg : Config) (wm : WeightMethod) :
    ∀ (k : Nat) (reduce : List GRow) (t : Nat),
      ∀ f ∈ kfoldGo o pts full ss cfg wm k reduce t,
        (∀ u ∈ uidsOf f.testGrid, u ∉ uidsOf f.trainGrid) ∧
        (∀ i ∈ f.testIdx, i ∉ f.trainIdx) := by
  intro k
  induction k with
  | zero => intro reduce t f hf; simp [kfoldGo] at hf
  | succ k ih =>
      intro reduce t f hf
      simp only [kfoldGo] at hf
      rcases hstep : kfoldStep o t pts full reduce ss cfg wm with e | r
      · rw [hstep] at hf
        simp at hf
      · rw [hstep] at hf
        rcases List.mem_cons.mp hf with rfl | hf2
        · exact kfoldStep_ok_disjoint o t pts full reduce ss cfg wm r hstep
        · exact ih r.2.1 r.2.2 f hf2

/-- C1 (amended): for every oracle behavior, `sample_train_val_test` yields
pairwise-disjoint grid-address sets; its point-position sets are pairwise
disjoint PROVIDED no dataset point lies in two distinct-uid quadrants of the
preprocessed grid table and no draw triggers the random top-up branch;
and every fold yielded by `split_kfold` has disjoint train/test grid-address
sets and disjoint train/test point sets. -/
theorem c1_split_disjointness (o : Oracle) (pts : List Point) (s : QTState)
    (wm : WeightMethod) (tf vf trf : ℚ) (cfg : Config) (nS : Nat)
    (hOK : OracleOK o) (R : TvtResult)
    (hR : R = tvtF o pts s wm tf vf trf cfg) :
    ((∀ u ∈ uidsOf R.tRes.grid,
        u ∉ uidsOf R.vRes.grid ∧ u ∉ uidsOf R.trRes.grid) ∧
     (∀ u ∈ uidsOf R.vRes.grid, u ∉ uidsOf R.trRes.grid)) ∧
    (NoShared pts R.grid0 → NoTopUp R.tN R.tRes → NoTopUp R.vN R.vRes →
      NoTopUp R.trN R.trRes →
      (∀ i ∈ R.tRes.idx, i ∉ R.vRes.idx ∧ i ∉ R.trRes.idx) ∧
      (∀ i ∈ R.vRes.idx, i ∉ R.trRes.idx)) ∧
    (∀ f ∈ kfoldRun o pts s nS cfg wm,
      (∀ u ∈ uidsOf f.testGrid, u ∉ uidsOf f.trainGrid) ∧
      (∀ i ∈ f.testIdx, i ∉ f.trainIdx)) := by
  subst hR
  have htR : (tvtF o pts s wm tf vf trf cfg).tRes =
      sampleSplitF o 0 (tvtF o pts s wm tf vf trf cfg).grid0
        (tvtF o pts s wm tf vf trf cfg).tN pts cfg true := rfl
  have hvR : (tvtF o pts s wm tf vf trf cfg).vRes =
      sampleSplitF o (tvtF o pts s wm tf vf trf cfg).tRes.time
        ((tvtF o pts s wm tf vf trf cfg).grid0.filter fun r =>
          decide (r.uid ∉ uidsOf (tvtF o pts s wm tf vf trf cfg).tRes.grid))
        (tvtF o pts s wm tf vf trf cfg).vN pts cfg true := rfl
  have htrR : (tvtF o pts s wm tf vf trf cfg).trRes =
      sampleSplitF o (tvtF o pts s wm tf vf trf cfg).vRes.time
        (((tvtF o pts s wm tf vf trf cfg).grid0.filter fun r =>
            decide (r.uid ∉ uidsOf (tvtF o pts s wm tf vf trf cfg).tRes.grid)).filter
          fun r => decide (r.uid ∉ uidsOf (tvtF o pts s wm tf vf trf cfg).vRes.grid))
        (tvtF o pts s wm tf vf trf cfg).trN pts cfg true := rfl
  -- grid subset facts
  have hT0 : ∀ g ∈ (tvtF o pts s wm tf vf trf cfg).tRes.grid,
      g ∈ (tvtF o pts s wm tf vf trf cfg).grid0 := by
    intro g hg
    rw [htR] at hg
    exact ssf_grid_sub _ _ _ _ _ _ _ g hg
  have hV1 : ∀ g ∈ (tvtF o pts s wm tf vf trf cfg).vRes.grid,
      g ∈ (tvtF o pts s wm tf vf trf cfg).grid0.filter fun r =>
        decide (r.uid ∉ uidsOf (tvtF o pts s wm tf vf trf cfg).tRes.grid) := by
    intro g hg
    rw [hvR] at hg
    exact ssf_grid_sub _ _ _ _ _ _ _ g hg
  have hTr2 : ∀ g ∈ (tvtF o pts s wm tf vf trf cfg).trRes.grid,
      g ∈ ((tvtF o pts s wm tf vf trf cfg).grid0.filter fun r =>
          decide (r.uid ∉ uidsOf (tvtF o pts s wm tf vf trf cfg).tRes.grid)).filter
        fun r => decide (r.uid ∉ uidsOf (tvtF o pts s wm tf vf trf cfg).vRes.grid) := by
    intro g hg
    rw [htrR] at hg
    exact ssf_grid_sub _ _ _ _ _ _ _ g hg
  -- uid-level consequences
  have hVnotT : ∀ u ∈ uidsOf (tvtF o pts s wm tf vf trf cfg).vRes.grid,
      u ∉ uidsOf (tvtF o pts s wm tf vf trf cfg).tRes.grid := by
    intro u hu
    rcases List.mem_map.mp hu with ⟨g, hg, rfl⟩
    have := (List.mem_filter.mp (hV1 g hg)).2
    simpa using this
  have hTrnotT : ∀ u ∈ uidsOf (tvtF o pts s wm tf vf trf cfg).trRes.grid,
      u ∉ uidsOf (tvtF o pts s wm tf vf trf cfg).tRes.grid := by
    intro u hu
    rcases List.mem_map.mp hu with ⟨g, hg, rfl⟩
    have := (List.mem_filter.mp (List.mem_of_mem_filter (hTr2 g hg))).2
    simpa using this
  have hTrnotV : ∀ u ∈ uidsOf (tvtF o pts s wm tf vf trf cfg).trRes.grid,
      u ∉ uidsOf (tvtF o pts s wm tf vf trf cfg).vRes.grid := by
    intro u hu
    rcases List.mem_map.mp hu with ⟨g, hg, rfl⟩
    have := (List.mem_filter.mp (hTr2 g hg)).2
    simpa using this
  have hV0 : ∀ g ∈ (tvtF o pts s wm tf vf trf cfg).vRes.grid,
      g ∈ (tvtF o pts s wm tf vf trf cfg).grid0 := fun g hg =>
    List.mem_of_mem_filter (hV1 g hg)
  have hTr0 : ∀ g ∈ (tvtF o pts s wm tf vf trf cfg).trRes.grid,
      g ∈ (tvtF o pts s wm tf vf trf cfg).grid0 := fun g hg =>
    List.mem_of_mem_filter (List.mem_of_mem_filter (hTr2 g hg))
  refine ⟨⟨?_, ?_⟩, ?_, ?_⟩
  · -- test uids not in val / train
    intro u hu
    constructor
    · intro hu2
      exact hVnotT u hu2 hu
    · intro hu2
      exact hTrnotT u hu2 hu
  · intro u hu hu2
    exact hTrnotV u hu2 hu
  · -- point disjointness under the side conditions
    intro hNS hTt hTv hTtr
    have horigT : ∀ i ∈ (tvtF o pts s wm tf vf trf cfg).tRes.idx,
        ∃ g ∈ (tvtF o pts s wm tf vf trf cfg).tRes.grid,
          i ∈ intersectionIdx pts g.bounds := by
      rw [htR] at hTt ⊢
      exact ssf_idx_origin _ _ _ _ _ _ _ hOK hTt
    have horigV : ∀ i ∈ (tvtF o pts s wm tf vf trf cfg).vRes.idx,
        ∃ g ∈ (tvtF o pts s wm tf vf trf cfg).vRes.grid,
          i ∈ intersectionIdx pts g.bounds := by
      rw [hvR] at hTv ⊢
      exact ssf_idx_origin _ _ _ _ _ _ _ hOK hTv
    have horigTr : ∀ i ∈ (tvtF o pts s wm tf vf trf cfg).trRes.idx,
        ∃ g ∈ (tvtF o pts s wm tf vf trf cfg).trRes.grid,
          i ∈ intersectionIdx pts g.bounds := by
      rw [htrR] at hTtr ⊢
      exact ssf_idx_origin _ _ _ _ _ _ _ hOK hTtr
    constructor
    · intro i hi
      rcases horigT i hi with ⟨gt, hgt, hit⟩
      constructor
      · intro hi2
        rcases horigV i hi2 with ⟨gv, hgv, hiv⟩
        have heq := hNS gt (hT0 gt hgt) gv (hV0 gv hgv) i hit hiv
        exact hVnotT gt.uid (by rw [heq]; exact List.mem_map.mpr ⟨gv, hgv, rfl⟩)
          (List.mem_map.mpr ⟨gt, hgt, rfl⟩)
      · intro hi2
        rcases horigTr i hi2 with ⟨gtr, hgtr, hitr⟩
        have heq := hNS gt (hT0 gt hgt) gtr (hTr0 gtr hgtr) i hit hitr
        exact hTrnotT gt.uid (by rw [heq]; exact List.mem_map.mpr ⟨gtr, hgtr, rfl⟩)
          (List.mem_map.mpr ⟨gt, hgt, rfl⟩)
    · intro i hi hi2
      rcases horigV i hi with ⟨gv, hgv, hiv⟩
      rcases horigTr i hi2 with ⟨gtr, hgtr, hitr⟩
      have heq := hNS gv (hV0 gv hgv) gtr (hTr0 gtr hgtr) i hiv hitr
      exact hTrnotV gv.uid (by rw [heq]; exact List.mem_map.mpr ⟨gtr, hgtr, rfl⟩)
        (List.mem_map.mpr ⟨gv, hgv, rfl⟩)
  · -- k-fold part
    intro f hf
    unfold kfoldRun at hf
    exact kfoldGo_disjoint o pts _ _ cfg wm nS _ 0 f hf

end PyGrts

namespace PyGrts

/-! ### Concrete evaluations of the train/val/test pipeline -/

theorem idOracle_ok : OracleOK idOracle := by
  refine ⟨?_, ?_, ?_, ?_⟩
  · intro t l x hx
    exact hx
  · intro t rs k r hr
    exact List.mem_of_mem_take hr
  · intro t l k x hx
    exact List.mem_of_mem_take hx
  · intro t l w k x hx
    exact List.mem_of_mem_take hx

theorem interBnd0 : intersectionIdx ptsBnd ⟨0, 0, 1, 1⟩ = [0, 1] := by
  norm_num [ptsBnd, intersectionIdx, interAux, inBox]

theorem interBnd1 : intersectionIdx ptsBnd ⟨0, 1, 1, 2⟩ = [0, 2] := by
  norm_num [ptsBnd, intersectionIdx, interAux, inBox]

theorem interBnd2 : intersectionIdx ptsBnd ⟨1, 0, 2, 1⟩ = [3] := by
  norm_num [ptsBnd, intersectionIdx, interAux, inBox]

theorem interBnd3 : intersectionIdx ptsBnd ⟨1, 1, 2, 2⟩ = [4] := by
  norm_num [ptsBnd, intersectionIdx, interAux, inBox]

theorem interIn0 : intersectionIdx ptsIn ⟨0, 0, 1, 1⟩ = [0] := by
  norm_num [ptsIn, intersectionIdx, interAux, inBox]

theorem interIn1 : intersectionIdx ptsIn ⟨0, 1, 1, 2⟩ = [1] := by
  norm_num [ptsIn, intersectionIdx, interAux, inBox]

theorem interIn2 : intersectionIdx ptsIn ⟨1, 0, 2, 1⟩ = [2] := by
  norm_num [ptsIn, intersectionIdx, interAux, inBox]

theorem interIn3 : intersectionIdx ptsIn ⟨1, 1, 2, 2⟩ = [3] := by
  norm_num [ptsIn, intersectionIdx, interAux, inBox]

theorem gridBnd :
    preprocessFromTree idOracle WeightMethod.none ptsBnd stateFour = rowsFour := by
  have hcl : countsList ptsBnd [[0], [1], [2], [3]]
      [⟨0, 0, 1, 1⟩, ⟨0, 1, 1, 2⟩, ⟨1, 0, 2, 1⟩, ⟨1, 1, 2, 2⟩] =
      [([0], 2), ([1], 2), ([2], 1), ([3], 1)] := by
    simp [countsList, interBnd0, interBnd1, interBnd2, interBnd3, insertDict]
  simp [preprocessFromTree, preprocessGivenGrid, baseFrame, hcl, mergeFrame,
    sortRows, List.insertionSort, List.orderedInsert, lexLe, stateFour, rowsFour]

theorem gridIn :
    preprocessFromTree idOracle WeightMethod.none ptsIn stateFour = rowsIn := by
  have hcl : countsList ptsIn [[0], [1], [2], [3]]
      [⟨0, 0, 1, 1⟩, ⟨0, 1, 1, 2⟩, ⟨1, 0, 2, 1⟩, ⟨1, 1, 2, 2⟩] =
      [([0], 1), ([1], 1), ([2], 1), ([3], 1)] := by
    simp [countsList, interIn0, interIn1, interIn2, interIn3, insertDict]
  simp [preprocessFromTree, preprocessGivenGrid, baseFrame, hcl, mergeFrame,
    sortRows, List.insertionSort, List.orderedInsert, lexLe, stateFour, rowsIn]

theorem pyFracN_4_quarter : pyFracN 4 (1/4) = 1 := by
  unfold pyFracN
  rw [show ((4 : Nat) : ℚ) * (1/4) = 1 by norm_num]
  simp

theorem pyFracN_3_half : pyFracN 3 (1/2) = 1 := by
  unfold pyFracN
  rw [show ((3 : Nat) : ℚ) * (1/2) = 3/2 by norm_num]
  rw [show ⌊(3 : ℚ)/2⌋ = 1 by rw [Int.floor_eq_iff] <;> norm_num]
  rfl

theorem pyFracN_3_third : pyFracN 3 (1/3) = 1 := by
  unfold pyFracN
  rw [show ((3 : Nat) : ℚ) * (1/3) = 1 by norm_num]
  simp

theorem pyFracN_2_half : pyFracN 2 (1/2) = 1 := by
  unfold pyFracN
  rw [show ((2 : Nat) : ℚ) * (1/2) = 1 by norm_num]
  simp

theorem ssBnd1 : sampleSplitF idOracle 0 rowsFour 1 ptsBnd plainCfg true =
    ⟨rowsFour, [⟨[0], ⟨0, 0, 1, 1⟩, 2⟩], [0], 2⟩ := by
  simp [sampleSplitF, idOracle, getSkip, everyNth, everyNthAux, sampleGridsF,
    topupExt, gridLoop, selectInGrid, plainCfg, sortNat, List.insertionSort,
    List.orderedInsert, interBnd0, rowsFour]

theorem ssBnd2 : sampleSplitF idOracle 2
    [⟨[1], ⟨0, 1, 1, 2⟩, 2⟩, ⟨[2], ⟨1, 0, 2, 1⟩, 1⟩, ⟨[3], ⟨1, 1, 2, 2⟩, 1⟩]
    1 ptsBnd plainCfg true =
    ⟨[⟨[1], ⟨0, 1, 1, 2⟩, 2⟩, ⟨[2], ⟨1, 0, 2, 1⟩, 1⟩, ⟨[3], ⟨1, 1, 2, 2⟩, 1⟩],
      [⟨[1], ⟨0, 1, 1, 2⟩, 2⟩], [0], 4⟩ := by
  simp [sampleSplitF, idOracle, getSkip, everyNth, everyNthAux, sampleGridsF,
    topupExt, gridLoop, selectInGrid, plainCfg, sortNat, List.insertionSort,
    List.orderedInsert, interBnd1]

theorem tvtBnd_grid0 :
    (tvtF idOracle ptsBnd stateFour WeightMethod.none (1/4) (1/2) (1/2) plainCfg).grid0 =
      rowsFour :=
  gridBnd

theorem tvtBnd_tN :
    (tvtF idOracle ptsBnd stateFour WeightMethod.none (1/4) (1/2) (1/2) plainCfg).tN = 1 := by
  have h : (tvtF idOracle ptsBnd stateFour WeightMethod.none (1/4) (1/2) (1/2) plainCfg).tN =
      pyFracN (tvtF idOracle ptsBnd stateFour
        WeightMethod.none (1/4) (1/2) (1/2) plainCfg).grid0.length (1/4) := rfl
  rw [h, tvtBnd_grid0]
  rw [show rowsFour.length = 4 by simp [rowsFour]]
  exact pyFracN_4_quarter

theorem tvtBnd_tRes :
    (tvtF idOracle ptsBnd stateFour WeightMethod.none (1/4) (1/2) (1/2) plainCfg).tRes =
      ⟨rowsFour, [⟨[0], ⟨0, 0, 1, 1⟩, 2⟩], [0], 2⟩ := by
  have h : (tvtF idOracle ptsBnd stateFour WeightMethod.none (1/4) (1/2) (1/2) plainCfg).tRes =
      sampleSplitF idOracle 0
        (tvtF idOracle ptsBnd stateFour WeightMethod.none (1/4) (1/2) (1/2) plainCfg).grid0
        (tvtF idOracle ptsBnd stateFour WeightMethod.none (1/4) (1/2) (1/2) plainCfg).tN
        ptsBnd plainCfg true := rfl
  rw [h, tvtBnd_grid0, tvtBnd_tN]
  exact ssBnd1

theorem tvtBnd_g1 :
    ((tvtF idOracle ptsBnd stateFour WeightMethod.none (1/4) (1/2) (1/2) plainCfg).grid0.filter
      fun r => decide (r.uid ∉ uidsOf (tvtF idOracle ptsBnd stateFour
        WeightMethod.none (1/4) (1/2) (1/2) plainCfg).tRes.grid)) =
      [⟨[1], ⟨0, 1, 1, 2⟩, 2⟩, ⟨[2], ⟨1, 0, 2, 1⟩, 1⟩, ⟨[3], ⟨1, 1, 2, 2⟩, 1⟩] := by
  rw [tvtBnd_grid0, tvtBnd_tRes]
  simp [rowsFour, uidsOf]

theorem tvtBnd_vN :
    (tvtF idOracle ptsBnd stateFour WeightMethod.none (1/4) (1/2) (1/2) plainCfg).vN = 1 := by
  have h : (tvtF idOracle ptsBnd stateFour WeightMethod.none (1/4) (1/2) (1/2) plainCfg).vN =
      pyFracN ((tvtF idOracle ptsBnd stateFour
          WeightMethod.none (1/4) (1/2) (1/2) plainCfg).grid0.filter
        fun r => decide (r.uid ∉ uidsOf (tvtF idOracle ptsBnd stateFour
          WeightMethod.none (1/4) (1/2) (1/2) plainCfg).tRes.grid)).length (1/2) := rfl
  rw [h, tvtBnd_g1]
  exact pyFracN_3_half

theorem tvtBnd_vRes :
    (tvtF idOracle ptsBnd stateFour WeightMethod.none (1/4) (1/2) (1/2) plainCfg).vRes =
      ⟨[⟨[1], ⟨0, 1, 1, 2⟩, 2⟩, ⟨[2], ⟨1, 0, 2, 1⟩, 1⟩, ⟨[3], ⟨1, 1, 2, 2⟩, 1⟩],
        [⟨[1], ⟨0, 1, 1, 2⟩, 2⟩], [0], 4⟩ := by
  have h : (tvtF idOracle ptsBnd stateFour WeightMethod.none (1/4) (1/2) (1/2) plainCfg).vRes =
      sampleSplitF idOracle
        (tvtF idOracle ptsBnd stateFour
          WeightMethod.none (1/4) (1/2) (1/2) plainCfg).tRes.time
        ((tvtF idOracle ptsBnd stateFour
            WeightMethod.none (1/4) (1/2) (1/2) plainCfg).grid0.filter
          fun r => decide (r.uid ∉ uidsOf (tvtF idOracle ptsBnd stateFour
            WeightMethod.none (1/4) (1/2) (1/2) plainCfg).tRes.grid))
        (tvtF idOracle ptsBnd stateFour WeightMethod.none (1/4) (1/2) (1/2) plainCfg).vN
        ptsBnd plainCfg true := rfl
  rw [h, tvtBnd_g1, tvtBnd_vN, tvtBnd_tRes]
  exact ssBnd2

end PyGrts

namespace PyGrts

/-- C1 counterexample: with an admissible generator, dataset point 0 (on the
shared boundary of quadrants `0` and `1`) is selected into BOTH the test and
the validation split of `sample_train_val_test`, so the point-identifier
sets of the named splits are not pairwise disjoint. -/
theorem c1_counterexample :
    OracleOK idOracle ∧
    0 ∈ (tvtF idOracle ptsBnd stateFour
        WeightMethod.none (1/4) (1/2) (1/2) plainCfg).tRes.idx ∧
    0 ∈ (tvtF idOracle ptsBnd stateFour
        WeightMethod.none (1/4) (1/2) (1/2) plainCfg).vRes.idx ∧
    ¬ (∀ i ∈ (tvtF idOracle ptsBnd stateFour
          WeightMethod.none (1/4) (1/2) (1/2) plainCfg).tRes.idx,
        i ∉ (tvtF idOracle ptsBnd stateFour
          WeightMethod.none (1/4) (1/2) (1/2) plainCfg).vRes.idx) := by
  have h0t : 0 ∈ (tvtF idOracle ptsBnd stateFour
      WeightMethod.none (1/4) (1/2) (1/2) plainCfg).tRes.idx := by
    rw [tvtBnd_tRes]
    simp
  have h0v : 0 ∈ (tvtF idOracle ptsBnd stateFour
      WeightMethod.none (1/4) (1/2) (1/2) plainCfg).vRes.idx := by
    rw [tvtBnd_vRes]
    simp
  exact ⟨idOracle_ok, h0t, h0v, fun h => h 0 h0t h0v⟩

theorem ssIn1 : sampleSplitF idOracle 0 rowsIn 1 ptsIn plainCfg true =
    ⟨rowsIn, [⟨[0], ⟨0, 0, 1, 1⟩, 1⟩], [0], 2⟩ := by
  simp [sampleSplitF, idOracle, getSkip, everyNth, everyNthAux, sampleGridsF,
    topupExt, gridLoop, selectInGrid, plainCfg, sortNat, List.insertionSort,
    List.orderedInsert, interIn0, rowsIn]

theorem ssIn2 : sampleSplitF idOracle 2
    [⟨[1], ⟨0, 1, 1, 2⟩, 1⟩, ⟨[2], ⟨1, 0, 2, 1⟩, 1⟩, ⟨[3], ⟨1, 1, 2, 2⟩, 1⟩]
    1 ptsIn plainCfg true =
    ⟨[⟨[1], ⟨0, 1, 1, 2⟩, 1⟩, ⟨[2], ⟨1, 0, 2, 1⟩, 1⟩, ⟨[3], ⟨1, 1, 2, 2⟩, 1⟩],
      [⟨[1], ⟨0, 1, 1, 2⟩, 1⟩], [1], 4⟩ := by
  simp [sampleSplitF, idOracle, getSkip, everyNth, everyNthAux, sampleGridsF,
    topupExt, gridLoop, selectInGrid, plainCfg, sortNat, List.insertionSort,
    List.orderedInsert, interIn1]

theorem ssIn3 : sampleSplitF idOracle 4
    [⟨[2], ⟨1, 0, 2, 1⟩, 1⟩, ⟨[3], ⟨1, 1, 2, 2⟩, 1⟩] 1 ptsIn plainCfg true =
    ⟨[⟨[2], ⟨1, 0, 2, 1⟩, 1⟩, ⟨[3], ⟨1, 1, 2, 2⟩, 1⟩],
      [⟨[2], ⟨1, 0, 2, 1⟩, 1⟩], [2], 6⟩ := by
  simp [sampleSplitF, idOracle, getSkip, everyNth, everyNthAux, sampleGridsF,
    topupExt, gridLoop, selectInGrid, plainCfg, sortNat, List.insertionSort,
    List.orderedInsert, interIn2]

theorem tvtIn_grid0 :
    (tvtF idOracle ptsIn stateFour WeightMethod.none (1/4) (1/3) (1/2) plainCfg).grid0 =
      rowsIn :=
  gridIn

theorem tvtIn_tN :
    (tvtF idOracle ptsIn stateFour WeightMethod.none (1/4) (1/3) (1/2) plainCfg).tN = 1 := by
  have h : (tvtF idOracle ptsIn stateFour WeightMethod.none (1/4) (1/3) (1/2) plainCfg).tN =
      pyFracN (tvtF idOracle ptsIn stateFour
        WeightMethod.none (1/4) (1/3) (1/2) plainCfg).grid0.length (1/4) := rfl
  rw [h, tvtIn_grid0]
  rw [show rowsIn.length = 4 by simp [rowsIn]]
  exact pyFracN_4_quarter

theorem tvtIn_tRes :
    (tvtF idOracle ptsIn stateFour WeightMethod.none (1/4) (1/3) (1/2) plainCfg).tRes =
      ⟨rowsIn, [⟨[0], ⟨0, 0, 1, 1⟩, 1⟩], [0], 2⟩ := by
  have h : (tvtF idOracle ptsIn stateFour WeightMethod.none (1/4) (1/3) (1/2) plainCfg).tRes =
      sampleSplitF idOracle 0
        (tvtF idOracle ptsIn stateFour WeightMethod.none (1/4) (1/3) (1/2) plainCfg).grid0
        (tvtF idOracle ptsIn stateFour WeightMethod.none (1/4) (1/3) (1/2) plainCfg).tN
        ptsIn plainCfg true := rfl
  rw [h, tvtIn_grid0, tvtIn_tN]
  exact ssIn1

theorem tvtIn_g1 :
    ((tvtF idOracle ptsIn stateFour WeightMethod.none (1/4) (1/3) (1/2) plainCfg).grid0.filter
      fun r => decide (r.uid ∉ uidsOf (tvtF idOracle ptsIn stateFour
        WeightMethod.none (1/4) (1/3) (1/2) plainCfg).tRes.grid)) =
      [⟨[1], ⟨0, 1, 1, 2⟩, 1⟩, ⟨[2], ⟨1, 0, 2, 1⟩, 1⟩, ⟨[3], ⟨1, 1, 2, 2⟩, 1⟩] := by
  rw [tvtIn_grid0, tvtIn_tRes]
  simp [rowsIn, uidsOf]

theorem tvtIn_vN :
    (tvtF idOracle ptsIn stateFour WeightMethod.none (1/4) (1/3) (1/2) plainCfg).vN = 1 := by
  have h : (tvtF idOracle ptsIn stateFour WeightMethod.none (1/4) (1/3) (1/2) plainCfg).vN =
      pyFracN ((tvtF idOracle ptsIn stateFour
          WeightMethod.none (1/4) (1/3) (1/2) plainCfg).grid0.filter
        fun r => decide (r.uid ∉ uidsOf (tvtF idOracle ptsIn stateFour
          WeightMethod.none (1/4) (1/3) (1/2) plainCfg).tRes.grid)).length (1/3) := rfl
  rw [h, tvtIn_g1]
  exact pyFracN_3_third

theorem tvtIn_vRes :
    (tvtF idOracle ptsIn stateFour WeightMethod.none (1/4) (1/3) (1/2) plainCfg).vRes =
      ⟨[⟨[1], ⟨0, 1, 1, 2⟩, 1⟩, ⟨[2], ⟨1, 0, 2, 1⟩, 1⟩, ⟨[3], ⟨1, 1, 2, 2⟩, 1⟩],
        [⟨[1], ⟨0, 1, 1, 2⟩, 1⟩], [1], 4⟩ := by
  have h : (tvtF idOracle ptsIn stateFour WeightMethod.none (1/4) (1/3) (1/2) plainCfg).vRes =
      sampleSplitF idOracle
        (tvtF idOracle ptsIn stateFour
          WeightMethod.none (1/4) (1/3) (1/2) plainCfg).tRes.time
        ((tvtF idOracle ptsIn stateFour
            WeightMethod.none (1/4) (1/3) (1/2) plainCfg).grid0.filter
          fun r => decide (r.uid ∉ uidsOf (tvtF idOracle ptsIn stateFour
            WeightMethod.none (1/4) (1/3) (1/2) plainCfg).tRes.grid))
        (tvtF idOracle ptsIn stateFour WeightMethod.none (1/4) (1/3) (1/2) plainCfg).vN
        ptsIn plainCfg true := rfl
  rw [h, tvtIn_g1, tvtIn_vN, tvtIn_tRes]
  exact ssIn2

theorem tvtIn_g2 :
    (((tvtF idOracle ptsIn stateFour WeightMethod.none (1/4) (1/3) (1/2) plainCfg).grid0.filter
        fun r => decide (r.uid ∉ uidsOf (tvtF idOracle ptsIn stateFour
          WeightMethod.none (1/4) (1/3) (1/2) plainCfg).tRes.grid)).filter
      fun r => decide (r.uid ∉ uidsOf (tvtF idOracle ptsIn stateFour
        WeightMethod.none (1/4) (1/3) (1/2) plainCfg).vRes.grid)) =
      [⟨[2], ⟨1, 0, 2, 1⟩, 1⟩, ⟨[3], ⟨1, 1, 2, 2⟩, 1⟩] := by
  rw [tvtIn_g1, tvtIn_vRes]
  simp [uidsOf]

theorem tvtIn_trN :
    (tvtF idOracle ptsIn stateFour WeightMethod.none (1/4) (1/3) (1/2) plainCfg).trN = 1 := by
  have h : (tvtF idOracle ptsIn stateFour WeightMethod.none (1/4) (1/3) (1/2) plainCfg).trN =
      pyFracN (((tvtF idOracle ptsIn stateFour
            WeightMethod.none (1/4) (1/3) (1/2) plainCfg).grid0.filter
          fun r => decide (r.uid ∉ uidsOf (tvtF idOracle ptsIn stateFour
            WeightMethod.none (1/4) (1/3) (1/2) plainCfg).tRes.grid)).filter
        fun r => decide (r.uid ∉ uidsOf (tvtF idOracle ptsIn stateFour
          WeightMethod.none (1/4) (1/3) (1/2) plainCfg).vRes.grid)).length (1/2) := rfl
  rw [h, tvtIn_g2]
  exact pyFracN_2_half

theorem tvtIn_trRes :
    (tvtF idOracle ptsIn stateFour WeightMethod.none (1/4) (1/3) (1/2) plainCfg).trRes =
      ⟨[⟨[2], ⟨1, 0, 2, 1⟩, 1⟩, ⟨[3], ⟨1, 1, 2, 2⟩, 1⟩],
        [⟨[2], ⟨1, 0, 2, 1⟩, 1⟩], [2], 6⟩ := by
  have h : (tvtF idOracle ptsIn stateFour WeightMethod.none (1/4) (1/3) (1/2) plainCfg).trRes =
      sampleSplitF idOracle
        (tvtF idOracle ptsIn stateFour
          WeightMethod.none (1/4) (1/3) (1/2) plainCfg).vRes.time
        (((tvtF idOracle ptsIn stateFour
              WeightMethod.none (1/4) (1/3) (1/2) plainCfg).grid0.filter
            fun r => decide (r.uid ∉ uidsOf (tvtF idOracle ptsIn stateFour
              WeightMethod.none (1/4) (1/3) (1/2) plainCfg).tRes.grid)).filter
          fun r => decide (r.uid ∉ uidsOf (tvtF idOracle ptsIn stateFour
            WeightMethod.none (1/4) (1/3) (1/2) plainCfg).vRes.grid))
        (tvtF idOracle ptsIn stateFour WeightMethod.none (1/4) (1/3) (1/2) plainCfg).trN
        ptsIn plainCfg true := rfl
  rw [h, tvtIn_g2, tvtIn_trN, tvtIn_vRes]
  exact ssIn3

/-- C1 witness: the amended theorem's point-disjointness conclusion at an
interior-point dataset, with all side conditions discharged. -/
theorem c1_witness :
    (∀ i ∈ (tvtF idOracle ptsIn stateFour
          WeightMethod.none (1/4) (1/3) (1/2) plainCfg).tRes.idx,
        i ∉ (tvtF idOracle ptsIn stateFour
          WeightMethod.none (1/4) (1/3) (1/2) plainCfg).vRes.idx ∧
        i ∉ (tvtF idOracle ptsIn stateFour
          WeightMethod.none (1/4) (1/3) (1/2) plainCfg).trRes.idx) ∧
    (∀ i ∈ (tvtF idOracle ptsIn stateFour
          WeightMethod.none (1/4) (1/3) (1/2) plainCfg).vRes.idx,
        i ∉ (tvtF idOracle ptsIn stateFour
          WeightMethod.none (1/4) (1/3) (1/2) plainCfg).trRes.idx) :=
  (c1_split_disjointness idOracle ptsIn stateFour WeightMethod.none (1/4) (1/3) (1/2)
      plainCfg 5 idOracle_ok _ rfl).2.1
    (by
      rw [show (tvtF idOracle ptsIn stateFour
          WeightMethod.none (1/4) (1/3) (1/2) plainCfg).grid0 = rowsIn from tvtIn_grid0]
      intro g hg g2 hg2 i hi hi2
      simp only [rowsIn, List.mem_cons, List.not_mem_nil, or_false] at hg hg2
      rcases hg with rfl | rfl | rfl | rfl <;> rcases hg2 with rfl | rfl | rfl | rfl <;>
        simp_all [interIn0, interIn1, interIn2, interIn3])
    (by
      show 2 * (tvtF idOracle ptsIn stateFour
          WeightMethod.none (1/4) (1/3) (1/2) plainCfg).tN ≤
        (tvtF idOracle ptsIn stateFour
          WeightMethod.none (1/4) (1/3) (1/2) plainCfg).tRes.pool.length
      rw [tvtIn_tN, tvtIn_tRes]
      simp [rowsIn])
    (by
      show 2 * (tvtF idOracle ptsIn stateFour
          WeightMethod.none (1/4) (1/3) (1/2) plainCfg).vN ≤
        (tvtF idOracle ptsIn stateFour
          WeightMethod.none (1/4) (1/3) (1/2) plainCfg).vRes.pool.length
      rw [tvtIn_vN, tvtIn_vRes]
      simp)
    (by
      show 2 * (tvtF idOracle ptsIn stateFour
          WeightMethod.none (1/4) (1/3) (1/2) plainCfg).trN ≤
        (tvtF idOracle ptsIn stateFour
          WeightMethod.none (1/4) (1/3) (1/2) plainCfg).trRes.pool.length
      rw [tvtIn_trN, tvtIn_trRes]
      simp)

end PyGrts
